import Mathlib

/-!
# A verification development for the NEAT_JS core

This file embeds the core data structures and operations of the NEAT_JS
repository (DAG, Genome, Network, NetworkGenerator, Mutator) as executable
Lean definitions, translated from the TypeScript sources, and proves the
spec's testable properties about them.

Conventions of the embedding:
* JS arrays become `List`s; in-place mutation becomes explicit state passing
  (an operation on a `DAG` returns the new `DAG`, possibly paired with the
  JS return value).
* Node indices are natural numbers (`Nat`); the JS index-validity check
  `0 <= i && i < length` becomes `i < length`.
* `RealType` (JS `number`) is modelled by `Rat` wherever the code only moves
  values around; transcendental activation functions are abstracted as a
  function parameter of the evaluator.
* The recursive `isAncestor` of the source is embedded with explicit fuel
  (`nodes.length` is enough fuel, proved below via simple-path shortening);
  the Kahn-style `computeDepth` worklist loop is embedded with fuel
  `nodes.length`, which suffices because each node is pushed at most once.
-/

namespace NeatJS

set_option maxHeartbeats 1000000
set_option maxRecDepth 8000

/-- Replace the element at index `i` by `f` applied to it (no-op when out of
range); the embedding of a JS in-place update `a[i] = f(a[i])`. -/
def modIdx : List α → Nat → (α → α) → List α
  | [], _, _ => []
  | a :: l, 0, f => f a :: l
  | a :: l, i + 1, f => a :: modIdx l i f

@[simp] theorem modIdx_nil (i : Nat) (f : α → α) : modIdx [] i f = [] := rfl

@[simp] theorem modIdx_cons_zero (a : α) (l : List α) (f : α → α) :
    modIdx (a :: l) 0 f = f a :: l := rfl

@[simp] theorem modIdx_cons_succ (a : α) (l : List α) (i : Nat) (f : α → α) :
    modIdx (a :: l) (i + 1) f = a :: modIdx l i f := rfl

@[simp] theorem length_modIdx (l : List α) (i : Nat) (f : α → α) :
    (modIdx l i f).length = l.length := by
  induction l generalizing i with
  | nil => rfl
  | cons a l ih => cases i <;> simp [modIdx, ih]

theorem getD_modIdx_self (l : List α) (i : Nat) (f : α → α) (d : α) (h : i < l.length) :
    (modIdx l i f).getD i d = f (l.getD i d) := by
  induction l generalizing i with
  | nil => simp at h
  | cons a l ih =>
    cases i with
    | zero => simp [modIdx]
    | succ j =>
      simp only [modIdx, List.getD_cons_succ]
      exact ih j (by simpa using h)

theorem getD_modIdx_ne (l : List α) (i j : Nat) (f : α → α) (d : α) (h : j ≠ i) :
    (modIdx l i f).getD j d = l.getD j d := by
  induction l generalizing i j with
  | nil => rfl
  | cons a l ih =>
    cases i with
    | zero =>
      cases j with
      | zero => exact absurd rfl h
      | succ j' => simp [modIdx]
    | succ i' =>
      cases j with
      | zero => simp [modIdx]
      | succ j' =>
        simp only [modIdx, List.getD_cons_succ]
        exact ih i' j' (fun hc => h (by simp [hc]))

theorem getD_modIdx_oob (l : List α) (i j : Nat) (f : α → α) (d : α) (h : l.length ≤ i) :
    (modIdx l i f).getD j d = l.getD j d := by
  induction l generalizing i j with
  | nil => rfl
  | cons a l ih =>
    cases i with
    | zero => simp at h
    | succ i' =>
      cases j with
      | zero => simp [modIdx]
      | succ j' =>
        simp only [modIdx, List.getD_cons_succ]
        exact ih i' j' (by simpa using h)

/-! ## The DAG (translated from `src/dag.ts`)

A `DAGNode` carries its in-edge counter, its computed depth and the ordered
list of its out-edge targets; a `DAG` is the sequence of its nodes. -/

structure DAGNode where
  incoming : Nat := 0
  depth : Nat := 0
  out : List Nat := []
  deriving Repr, DecidableEq, Inhabited

structure DAG where
  nodes : List DAGNode
  deriving Repr, DecidableEq, Inhabited

/-- A freshly created node: `incoming = 0`, `depth = 0`, no out-edges. -/
def DAGNode.new : DAGNode := ⟨0, 0, []⟩

@[simp] theorem DAGNode.default_eq : (default : DAGNode) = DAGNode.new := rfl

@[simp] theorem DAGNode.new_out : DAGNode.new.out = [] := rfl

@[simp] theorem DAGNode.new_incoming : DAGNode.new.incoming = 0 := rfl

namespace DAG

/-- The empty DAG (`new DAG()`). -/
def empty : DAG := ⟨[]⟩

/-- Node lookup; out-of-range indices yield the default node, which the
translated operations never rely on. -/
def getNode (g : DAG) (i : Nat) : DAGNode := g.nodes.getD i default

/-- `isValid(nodeId)`: the index-range check of the source. -/
def isValid (g : DAG) (i : Nat) : Bool := i < g.nodes.length

/-- `createNode()`: appends a fresh node and returns its index. -/
def createNode (g : DAG) : Nat × DAG :=
  (g.nodes.length, ⟨g.nodes ++ [DAGNode.new]⟩)

/-- `isParent(parent, child)`: `child` is listed among `parent`'s out-edges. -/
def isParent (g : DAG) (p c : Nat) : Bool :=
  g.isValid p && (g.getNode p).out.contains c

/-- The body of the recursive `isAncestor(ancestor, descendant)` of the
source, with explicit fuel standing in for the JS call stack. -/
def isAncestorF (g : DAG) : Nat → Nat → Nat → Bool
  | 0, _, _ => false
  | fuel + 1, a, d =>
    if !g.isValid a then false
    else if g.isParent a d then true
    else (g.getNode a).out.any fun c => g.isAncestorF fuel c d

/-- `isAncestor(ancestor, descendant)`: fuel `nodes.length` is enough, because
a shortest witnessing path visits each node at most once (proved below). -/
def isAncestor (g : DAG) (a d : Nat) : Bool := g.isAncestorF g.nodes.length a d

/-- `createConnection(from, to)`: the validating edge insertion; returns the
JS boolean together with the updated DAG. -/
def createConnection (g : DAG) (f t : Nat) : Bool × DAG :=
  if !g.isValid f || !g.isValid t then (false, g)
  else if f = t then (false, g)
  else if g.isAncestor t f then (false, g)
  else if g.isParent f t then (false, g)
  else
    (true, ⟨modIdx (modIdx g.nodes f fun nd => { nd with out := nd.out ++ [t] })
      t fun nd => { nd with incoming := nd.incoming + 1 }⟩)

end DAG

/-! ### Reachability: the relational counterpart of `isAncestor` -/

/-- The edge relation of a DAG: a direct parent/child pair. -/
def Edge (g : DAG) (a b : Nat) : Prop := g.isParent a b = true

/-- `Reach g a d`: `a` reaches `d` through one or more edges — the relation
the recursive `isAncestor` of the source computes. -/
inductive Reach (g : DAG) : Nat → Nat → Prop
  | single {a b : Nat} : Edge g a b → Reach g a b
  | cons {a b c : Nat} : Edge g a b → Reach g b c → Reach g a c

/-- A walk from `a` through the successive vertices `l` (the last element of
`l`, when `l` is nonempty, is the destination). -/
inductive Walk (g : DAG) : Nat → List Nat → Nat → Prop
  | nil {a : Nat} : Walk g a [] a
  | cons {a b : Nat} {l : List Nat} {d : Nat} :
      Edge g a b → Walk g b l d → Walk g a (b :: l) d

theorem Reach.to_walk {g : DAG} {a d : Nat} (h : Reach g a d) :
    ∃ l, l ≠ [] ∧ Walk g a l d := by
  induction h with
  | single e => exact ⟨[_], by simp, Walk.cons e Walk.nil⟩
  | cons e _ ih =>
    obtain ⟨l, _, w⟩ := ih
    exact ⟨_ :: l, by simp, Walk.cons e w⟩

theorem Walk.to_reach {g : DAG} {a d : Nat} {l : List Nat} (h : Walk g a l d)
    (hl : l ≠ []) : Reach g a d := by
  induction h with
  | nil => exact absurd rfl hl
  | @cons a b l d e w ih =>
    cases l with
    | nil => cases w; exact Reach.single e
    | cons x xs => exact Reach.cons e (ih (by simp))

theorem Walk.append {g : DAG} {a b d : Nat} {l₁ l₂ : List Nat}
    (h₁ : Walk g a l₁ b) (h₂ : Walk g b l₂ d) : Walk g a (l₁ ++ l₂) d := by
  induction h₁ with
  | nil => simpa using h₂
  | cons e _ ih => exact Walk.cons e (ih h₂)

/-- Dropping a prefix of a walk: the suffix after any explicit vertex is a
walk from that vertex. -/
theorem Walk.suffix {g : DAG} {a d : Nat} {l₁ l₂ : List Nat} {b : Nat}
    (h : Walk g a (l₁ ++ b :: l₂) d) : Walk g b l₂ d := by
  induction l₁ generalizing a with
  | nil => cases h with | cons _ w => exact w
  | cons x xs ih => cases h with | cons _ w => exact ih w

theorem Walk.prefix_to {g : DAG} {a d : Nat} {l₁ l₂ : List Nat} {b : Nat}
    (h : Walk g a (l₁ ++ b :: l₂) d) : Walk g a (l₁ ++ [b]) b := by
  induction l₁ generalizing a with
  | nil =>
    cases h with | cons e _ => exact Walk.cons e Walk.nil
  | cons x xs ih =>
    cases h with | cons e w => exact Walk.cons e (ih w)

theorem Edge.valid_src {g : DAG} {a b : Nat} (e : Edge g a b) :
    g.isValid a = true := by
  unfold Edge DAG.isParent at e
  simp only [Bool.and_eq_true] at e
  exact e.1

theorem Edge.mem_out {g : DAG} {a b : Nat} (e : Edge g a b) :
    b ∈ (g.getNode a).out := by
  unfold Edge DAG.isParent at e
  simp only [Bool.and_eq_true] at e
  simpa using e.2

theorem Edge.lt_len {g : DAG} {a b : Nat} (e : Edge g a b) :
    a < g.nodes.length := by
  simpa [DAG.isValid] using e.valid_src

theorem Walk.sources_valid {g : DAG} {a d : Nat} {l : List Nat} (h : Walk g a l d)
    (hl : l ≠ []) : a < g.nodes.length := by
  cases h with
  | nil => exact absurd rfl hl
  | cons e _ => exact e.lt_len

/-- Every walk can be shortened to one whose vertex sequence (source
included) has no duplicates, using only vertices of the original walk. -/
theorem Walk.dedup_aux {g : DAG} :
    ∀ (n : Nat) {a d : Nat} {l : List Nat}, l.length ≤ n → Walk g a l d →
    ∃ l', Walk g a l' d ∧ (a :: l').Nodup ∧ l' ⊆ l ∧ (l ≠ [] → a ≠ d → l' ≠ []) := by
  intro n
  induction n with
  | zero =>
    intro a d l hn h
    have : l = [] := List.eq_nil_of_length_eq_zero (Nat.le_zero.1 hn)
    subst this
    cases h
    exact ⟨[], Walk.nil, by simp, by simp, fun h' _ => absurd rfl h'⟩
  | succ n ih =>
    intro a d l hn h
    by_cases ha : a ∈ l
    · obtain ⟨l₁, l₂, rfl⟩ := List.append_of_mem ha
      have w₂ : Walk g a l₂ d := h.suffix
      have hlen : l₂.length ≤ n := by
        have : (l₁ ++ a :: l₂).length = l₁.length + l₂.length + 1 := by
          simp [List.length_append]; omega
        omega
      obtain ⟨l', hw, hnd, hsub, hne⟩ := ih hlen w₂
      refine ⟨l', hw, hnd, ?_, ?_⟩
      · intro x hx
        simp only [List.mem_append, List.mem_cons]
        exact Or.inr (Or.inr (hsub hx))
      · intro _ had
        cases l₂ with
        | nil => cases w₂; exact absurd rfl had
        | cons y ys => exact hne (by simp) had
    · cases h with
      | nil => exact ⟨[], Walk.nil, by simp, by simp, fun h' _ => absurd rfl h'⟩
      | @cons _ b l₀ _ e w =>
        have hlen : l₀.length ≤ n := by simp at hn; omega
        obtain ⟨l', hw, hnd, hsub, _⟩ := ih hlen w
        refine ⟨b :: l', Walk.cons e hw, ?_, ?_, fun _ _ => by simp⟩
        · refine List.nodup_cons.2 ⟨?_, hnd⟩
          intro hmem
          rcases List.mem_cons.1 hmem with rfl | hmem'
          · exact ha (by simp)
          · exact ha (List.mem_cons_of_mem _ (hsub hmem'))
        · intro x hx
          rcases List.mem_cons.1 hx with rfl | hx'
          · simp
          · exact List.mem_cons_of_mem _ (hsub hx')

theorem Walk.dedup {g : DAG} {a d : Nat} {l : List Nat} (h : Walk g a l d) :
    ∃ l', Walk g a l' d ∧ (a :: l').Nodup ∧ l' ⊆ l ∧ (l ≠ [] → a ≠ d → l' ≠ []) :=
  Walk.dedup_aux l.length le_rfl h

theorem Walk.isAncestorF_of_walk {g : DAG} {a d : Nat} {l : List Nat}
    (h : Walk g a l d) (hl : l ≠ []) {fuel : Nat} (hfuel : l.length ≤ fuel) :
    g.isAncestorF fuel a d = true := by
  induction h generalizing fuel with
  | nil => exact absurd rfl hl
  | @cons a b l' d e w ih =>
    cases fuel with
    | zero => simp at hfuel
    | succ f =>
      have hav : g.isValid a = true := e.valid_src
      rw [DAG.isAncestorF]
      simp only [hav, Bool.not_true, Bool.false_eq_true, if_false]
      by_cases hp : g.isParent a d
      · simp [hp]
      · simp only [hp, Bool.false_eq_true, if_false, List.any_eq_true]
        cases l' with
        | nil =>
          cases w
          exact absurd e hp
        | cons x xs =>
          exact ⟨b, e.mem_out, ih (by simp) (by simpa using Nat.le_of_succ_le_succ hfuel)⟩

theorem isAncestorF_sound {g : DAG} {fuel a d : Nat}
    (h : g.isAncestorF fuel a d = true) : Reach g a d := by
  induction fuel generalizing a with
  | zero => simp [DAG.isAncestorF] at h
  | succ f ih =>
    rw [DAG.isAncestorF] at h
    by_cases hav : g.isValid a
    · simp only [hav, Bool.not_true, Bool.false_eq_true, if_false] at h
      by_cases hp : g.isParent a d
      · exact Reach.single hp
      · simp only [hp, Bool.false_eq_true, if_false, List.any_eq_true] at h
        obtain ⟨c, hc, hrec⟩ := h
        have e : Edge g a c := by
          unfold Edge DAG.isParent
          simp [hav, hc]
        exact Reach.cons e (ih hrec)
    · simp [hav] at h

/-- A walk whose vertex sequence has no duplicates has at most
`nodes.length` edges (its sources are distinct valid indices). -/
theorem Walk.length_le_of_nodup {g : DAG} {a d : Nat} {l' : List Nat}
    (hw : Walk g a l' d) (hnd : (a :: l').Nodup) (hl' : l' ≠ []) :
    l'.length ≤ g.nodes.length := by
  -- all sources of the walk (a and all of l' but the last) are valid nodes
  have hval : ∀ x ∈ a :: l'.dropLast, x < g.nodes.length := by
    intro x hx
    rcases List.mem_cons.1 hx with rfl | hx'
    · exact hw.sources_valid hl'
    · obtain ⟨l₁, l₂, hsplit⟩ := List.append_of_mem (List.dropLast_subset _ hx')
      cases l₂ with
      | nil =>
        -- x would be the last element of l', yet x came from dropLast: nodup contradiction
        exfalso
        have hmem : x ∈ l'.dropLast := hx'
        have hlast : l' = l₁ ++ [x] := by simpa using hsplit
        have hnd' : (l₁ ++ [x]).Nodup := by
          rw [hlast] at hnd; exact (List.nodup_cons.1 hnd).2
        rw [hlast, List.dropLast_concat] at hmem
        exact (List.nodup_append.1 hnd').2.2 hmem (by simp)
      | cons y ys =>
        have hsuf : Walk g x (y :: ys) d := by rw [hsplit] at hw; exact hw.suffix
        exact hsuf.sources_valid (by simp)
  -- a nodup list of naturals all < n has length ≤ n
  have hsub : a :: l'.dropLast ⊆ List.range g.nodes.length := by
    intro x hx; exact List.mem_range.2 (hval x hx)
  have hnd' : (a :: l'.dropLast).Nodup := by
    refine List.nodup_cons.2 ⟨fun hc => (List.nodup_cons.1 hnd).1 (List.dropLast_subset _ hc), ?_⟩
    exact (List.nodup_cons.1 hnd).2.sublist (List.dropLast_sublist _)
  have hlen := (hnd'.subperm hsub).length_le
  simp only [List.length_cons, List.length_range] at hlen
  have : l'.length = l'.dropLast.length + 1 := by
    cases l' with
    | nil => exact absurd rfl hl'
    | cons x xs => simp
  omega

/-- Completeness of the fuelled ancestor search: `nodes.length` fuel decides
reachability between distinct endpoints, because a deduplicated witnessing
walk has at most `nodes.length` edges. -/
theorem reach_isAncestor {g : DAG} {a d : Nat} (h : Reach g a d) (had : a ≠ d) :
    g.isAncestor a d = true := by
  obtain ⟨l, hl, w⟩ := h.to_walk
  obtain ⟨l', hw, hnd, _, hne⟩ := w.dedup
  have hl' : l' ≠ [] := hne hl had
  show g.isAncestorF g.nodes.length a d = true
  exact hw.isAncestorF_of_walk hl' (hw.length_le_of_nodup hnd hl')

/-- `isAncestor` decides reachability (for distinct endpoints). -/
theorem isAncestor_iff_reach {g : DAG} {a d : Nat} (had : a ≠ d) :
    g.isAncestor a d = true ↔ Reach g a d :=
  ⟨isAncestorF_sound, fun h => reach_isAncestor h had⟩

/-- With one extra unit of fuel the search also detects self-reachability
(a shortest cycle through `x` has at most `nodes.length + 1` edges counting
the return to `x`). -/
theorem reach_self_isAncestorF {g : DAG} {x : Nat} (h : Reach g x x) :
    g.isAncestorF (g.nodes.length + 1) x x = true := by
  obtain ⟨l, hl, w⟩ := h.to_walk
  cases w with
  | nil => exact absurd rfl hl
  | @cons _ b l₀ _ e w₀ =>
    by_cases hbx : b = x
    · subst hbx
      exact (Walk.cons e Walk.nil).isAncestorF_of_walk (by simp) (by simp)
    · obtain ⟨l', hw, hnd, _, hne⟩ := w₀.dedup
      have hl' : l' ≠ [] := hne (by
        intro hnil
        subst hnil
        cases w₀
        exact hbx rfl) hbx
      have hfull : Walk g x (b :: l') x := Walk.cons e hw
      refine hfull.isAncestorF_of_walk (by simp) ?_
      have := hw.length_le_of_nodup hnd hl'
      simp
      omega

/-! ### Preservation of acyclicity by the DAG operations -/

/-- Acyclicity, stated relationally: no node reaches itself. -/
def Acyclic (g : DAG) : Prop := ∀ x, ¬ Reach g x x

theorem reach_congr {g g' : DAG} (he : ∀ x y, Edge g x y ↔ Edge g' x y)
    {a d : Nat} (h : Reach g a d) : Reach g' a d := by
  induction h with
  | single e => exact Reach.single ((he _ _).1 e)
  | cons e _ ih => exact Reach.cons ((he _ _).1 e) ih

/-- `createNode` adds an isolated node: the edge relation is unchanged. -/
theorem edge_createNode (g : DAG) (x y : Nat) :
    Edge (g.createNode).2 x y ↔ Edge g x y := by
  unfold Edge DAG.isParent DAG.createNode DAG.isValid DAG.getNode
  simp only [Bool.and_eq_true, decide_eq_true_eq, List.length_append, List.length_cons,
    List.length_nil]
  constructor
  · rintro ⟨hx, hmem⟩
    rcases Nat.lt_or_ge x g.nodes.length with hlt | hge
    · refine ⟨hlt, ?_⟩
      rwa [List.getD_eq_getElem?_getD, List.getElem?_append_left hlt,
        ← List.getD_eq_getElem?_getD] at hmem
    · exfalso
      have hx' : x = g.nodes.length := by omega
      subst hx'
      rw [List.getD_eq_getElem?_getD, List.getElem?_append_right (le_refl _)] at hmem
      simp [DAGNode.new] at hmem
  · rintro ⟨hx, hmem⟩
    refine ⟨by omega, ?_⟩
    rwa [List.getD_eq_getElem?_getD, List.getElem?_append_left hx,
      ← List.getD_eq_getElem?_getD]

/-- The node list produced by a successful `createConnection f t`. -/
def connectNodes (nodes : List DAGNode) (f t : Nat) : List DAGNode :=
  modIdx (modIdx nodes f fun nd => { nd with out := nd.out ++ [t] })
    t fun nd => { nd with incoming := nd.incoming + 1 }

theorem connect_out {g : DAG} {f t : Nat} (hft : f ≠ t) (z : Nat) :
    ((⟨connectNodes g.nodes f t⟩ : DAG).getNode z).out =
      if z = f ∧ f < g.nodes.length then (g.getNode z).out ++ [t]
      else (g.getNode z).out := by
  unfold DAG.getNode connectNodes
  by_cases hzf : z = f
  · subst hzf
    rw [getD_modIdx_ne _ _ _ _ _ hft]
    rcases Nat.lt_or_ge z g.nodes.length with hlt | hge
    · rw [getD_modIdx_self _ _ _ _ hlt]
      rw [if_pos ⟨rfl, hlt⟩]
    · rw [getD_modIdx_oob _ _ _ _ _ hge]
      rw [if_neg (fun hc => absurd hc.2 (by omega))]
  · by_cases hzt : z = t
    · rw [if_neg (fun hc => hzf hc.1)]
      rcases Nat.lt_or_ge z g.nodes.length with hlt | hge
      · rw [hzt, getD_modIdx_self _ _ _ _ (by simpa using hzt ▸ hlt),
          ← hzt, getD_modIdx_ne _ _ _ _ _ hzf]
      · rw [hzt, getD_modIdx_oob _ _ _ _ _ (by simpa using hzt ▸ hge),
          ← hzt, getD_modIdx_ne _ _ _ _ _ hzf]
    · rw [if_neg (fun hc => hzf hc.1)]
      rw [getD_modIdx_ne _ _ _ _ _ hzt, getD_modIdx_ne _ _ _ _ _ hzf]

theorem connect_incoming {g : DAG} {f t : Nat} (hft : f ≠ t) (ht : t < g.nodes.length) :
    ((⟨connectNodes g.nodes f t⟩ : DAG).getNode t).incoming =
      (g.getNode t).incoming + 1 := by
  unfold DAG.getNode connectNodes
  rw [getD_modIdx_self _ _ _ _ (by simpa using ht), getD_modIdx_ne _ _ _ _ _ (Ne.symm hft)]

/-- Unfolding of the edge relation into its two components. -/
theorem edge_def {g : DAG} {x y : Nat} :
    Edge g x y ↔ x < g.nodes.length ∧ y ∈ (g.getNode x).out := by
  unfold Edge DAG.isParent DAG.isValid
  simp [Bool.and_eq_true]

theorem edge_connect {g : DAG} {f t : Nat} (hft : f ≠ t) (hf : f < g.nodes.length)
    (x y : Nat) :
    Edge ⟨connectNodes g.nodes f t⟩ x y ↔ Edge g x y ∨ (x = f ∧ y = t) := by
  have hlen : (connectNodes g.nodes f t).length = g.nodes.length := by
    simp [connectNodes]
  have hmem : ∀ z w, w ∈ ((⟨connectNodes g.nodes f t⟩ : DAG).getNode z).out ↔
      (w ∈ (g.getNode z).out ∨ (z = f ∧ w = t)) := by
    intro z w
    rw [connect_out hft]
    by_cases hzf : z = f
    · subst hzf
      rw [if_pos ⟨rfl, hf⟩]
      simp
    · rw [if_neg (fun hc => hzf hc.1)]
      simp [hzf]
  rw [edge_def, edge_def]
  show (x < (connectNodes g.nodes f t).length ∧ _) ↔ _
  rw [hlen, hmem]
  constructor
  · rintro ⟨hx, h | h⟩
    · exact Or.inl ⟨hx, h⟩
    · exact Or.inr h
  · rintro (⟨hx, h⟩ | ⟨rfl, rfl⟩)
    · exact ⟨hx, Or.inl h⟩
    · exact ⟨hf, Or.inr ⟨rfl, rfl⟩⟩


/-- Any reach in the graph extended by edge `(f, t)` either avoids the new
edge entirely, or decomposes around it. -/
theorem reach_connect_decomp {g : DAG} {f t : Nat} (hft : f ≠ t)
    (hf : f < g.nodes.length) {x y : Nat}
    (h : Reach ⟨connectNodes g.nodes f t⟩ x y) :
    Reach g x y ∨ ((Reach g x f ∨ x = f) ∧ (Reach g t y ∨ t = y)) := by
  induction h with
  | @single a b e =>
    rcases (edge_connect hft hf a b).1 e with e' | ⟨rfl, rfl⟩
    · exact Or.inl (Reach.single e')
    · exact Or.inr ⟨Or.inr rfl, Or.inr rfl⟩
  | @cons a b c e _ ih =>
    rcases (edge_connect hft hf a b).1 e with e' | ⟨rfl, rfl⟩
    · rcases ih with hr | ⟨hl, hr⟩
      · exact Or.inl (Reach.cons e' hr)
      · refine Or.inr ⟨?_, hr⟩
        rcases hl with hbf | rfl
        · exact Or.inl (Reach.cons e' hbf)
        · exact Or.inl (Reach.single e')
    · rcases ih with hr | ⟨_, hr⟩
      · exact Or.inr ⟨Or.inr rfl, Or.inl hr⟩
      · exact Or.inr ⟨Or.inr rfl, hr⟩

theorem Reach.trans {g : DAG} {a b c : Nat} (h₁ : Reach g a b) (h₂ : Reach g b c) :
    Reach g a c := by
  induction h₁ with
  | single e => exact Reach.cons e h₂
  | cons e _ ih => exact Reach.cons e (ih h₂)

/-- Inserting an edge `(f, t)` whose reverse is unreachable keeps the graph
acyclic. -/
theorem acyclic_connect {g : DAG} {f t : Nat} (hft : f ≠ t)
    (hf : f < g.nodes.length) (hacy : Acyclic g) (hrev : ¬ Reach g t f) :
    Acyclic ⟨connectNodes g.nodes f t⟩ := by
  intro x hx
  rcases reach_connect_decomp hft hf hx with h | ⟨hl, hr⟩
  · exact hacy x h
  · rcases hl with hxf | rfl
    · rcases hr with htx | rfl
      · exact hrev (Reach.trans htx hxf)
      · exact hrev hxf
    · rcases hr with htf | rfl
      · exact hrev htf
      · exact hft rfl

/-- `createConnection` in the failing cases: `false` and no mutation. -/
theorem createConnection_fail {g : DAG} {f t : Nat}
    (h : ¬ f < g.nodes.length ∨ ¬ t < g.nodes.length ∨ f = t
      ∨ g.isAncestor t f = true ∨ g.isParent f t = true) :
    g.createConnection f t = (false, g) := by
  unfold DAG.createConnection
  split_ifs with h1 h2 h3 h4
  · rfl
  · rfl
  · rfl
  · rfl
  · exfalso
    simp only [Bool.or_eq_true, Bool.not_eq_true', DAG.isValid,
      decide_eq_false_iff_not, not_or, not_not] at h1
    rcases h with h | h | h | h | h
    · exact h h1.1
    · exact h h1.2
    · exact h2 h
    · exact absurd h (by simpa using h3)
    · exact absurd h (by simpa using h4)

/-- `createConnection` in the successful case: `true` and the edge update. -/
theorem createConnection_succ {g : DAG} {f t : Nat}
    (hf : f < g.nodes.length) (ht : t < g.nodes.length) (hft : f ≠ t)
    (hanc : g.isAncestor t f = false) (hpar : g.isParent f t = false) :
    g.createConnection f t = (true, ⟨connectNodes g.nodes f t⟩) := by
  unfold DAG.createConnection connectNodes
  simp [DAG.isValid, hf, ht, hft, hanc, hpar]

/-- A sequence of DAG structural operations, as in the claim "every sequence
of createNode/createConnection calls". -/
inductive DOp
  | node : DOp
  | conn (f t : Nat) : DOp
  deriving Repr, DecidableEq

def applyDOp (g : DAG) : DOp → DAG
  | DOp.node => g.createNode.2
  | DOp.conn f t => (g.createConnection f t).2

/-- Run a sequence of operations on an initially empty DAG (`new DAG()`). -/
def runDOps (ops : List DOp) : DAG := ops.foldl applyDOp DAG.empty

theorem applyDOp_acyclic {g : DAG} (hacy : Acyclic g) (op : DOp) :
    Acyclic (applyDOp g op) := by
  cases op with
  | node =>
    intro x hx
    exact hacy x (reach_congr (fun a b => (edge_createNode g a b)) hx)
  | conn f t =>
    show Acyclic (g.createConnection f t).2
    unfold DAG.createConnection
    split_ifs with h1 h2 h3 h4
    · exact hacy
    · exact hacy
    · exact hacy
    · exact hacy
    · simp only [Bool.or_eq_true, Bool.not_eq_true', DAG.isValid,
        decide_eq_false_iff_not, not_or, not_not] at h1
      have hanc : g.isAncestor t f = false := by
        cases hb : g.isAncestor t f with
        | false => rfl
        | true => exact absurd hb h3
      have hrev : ¬ Reach g t f := by
        intro hr
        rw [reach_isAncestor hr (fun hc => h2 hc.symm)] at hanc
        exact Bool.true_eq_false.mp hanc
      exact acyclic_connect h2 h1.1 hacy hrev

theorem foldl_applyDOp_acyclic (ops : List DOp) :
    ∀ g : DAG, Acyclic g → Acyclic (ops.foldl applyDOp g) := by
  induction ops with
  | nil => exact fun g h => h
  | cons op ops ih =>
    intro g h
    exact ih _ (applyDOp_acyclic h op)

theorem acyclic_empty : Acyclic DAG.empty := by
  intro x hx
  cases hx with
  | single e => simpa [DAG.empty, DAG.isValid, DAG.isParent] using e.lt_len
  | cons e _ => simpa [DAG.empty, DAG.isValid, DAG.isParent] using e.lt_len

theorem runDOps_acyclic (ops : List DOp) : Acyclic (runDOps ops) :=
  foldl_applyDOp_acyclic ops DAG.empty acyclic_empty

/-- C1: for every sequence of `createNode`/`createConnection` calls on a DAG,
at no point does `isAncestor(x, x)` hold for any node `x`: the edge relation
stays acyclic because `createConnection` rejects any cycle-closing edge. -/
theorem c1_no_self_ancestor (ops : List DOp) (x : Nat) :
    (runDOps ops).isAncestor x x = false := by
  cases hb : (runDOps ops).isAncestor x x with
  | false => rfl
  | true => exact absurd (isAncestorF_sound hb) (runDOps_acyclic ops x)

/-- C2: `createConnection(from, to)` returns `false` and leaves the DAG
unchanged exactly when an index is invalid, `from = to`, `to` is already an
ancestor of `from`, or the edge already exists; otherwise it returns `true`,
appends `to` to `from`'s out-edges and increments `to`'s incoming count. -/
theorem c2_createConnection_spec (g : DAG) (f t : Nat) :
    ((¬ f < g.nodes.length ∨ ¬ t < g.nodes.length ∨ f = t
        ∨ g.isAncestor t f = true ∨ g.isParent f t = true) →
      g.createConnection f t = (false, g))
    ∧ ((f < g.nodes.length ∧ t < g.nodes.length ∧ f ≠ t
        ∧ g.isAncestor t f = false ∧ g.isParent f t = false) →
      (g.createConnection f t).1 = true
      ∧ ((g.createConnection f t).2.getNode f).out = (g.getNode f).out ++ [t]
      ∧ ((g.createConnection f t).2.getNode t).incoming = (g.getNode t).incoming + 1
      ∧ (g.createConnection f t).2 ≠ g) := by
  constructor
  · exact createConnection_fail
  · rintro ⟨hf, ht, hft, hanc, hpar⟩
    rw [createConnection_succ hf ht hft hanc hpar]
    refine ⟨rfl, ?_, ?_, ?_⟩
    · rw [show ((true, (⟨connectNodes g.nodes f t⟩ : DAG)).2) = (⟨connectNodes g.nodes f t⟩ : DAG) from rfl,
        connect_out hft, if_pos ⟨rfl, hf⟩]
    · exact connect_incoming hft ht
    · intro heq
      have := congrArg (fun d => ((d : DAG).getNode f).out) heq
      simp only at this
      rw [connect_out hft, if_pos ⟨rfl, hf⟩] at this
      have hlen := congrArg List.length this
      simp at hlen

/-- Witness for C2 on a concrete two-node DAG: the self-loop `0 → 0` is
rejected without mutation, while `0 → 1` succeeds. -/
theorem c2_witness :
    ((⟨[DAGNode.new, DAGNode.new]⟩ : DAG).createConnection 0 0 =
      (false, ⟨[DAGNode.new, DAGNode.new]⟩))
    ∧ ((⟨[DAGNode.new, DAGNode.new]⟩ : DAG).createConnection 0 1).1 = true := by
  constructor
  · exact (c2_createConnection_spec ⟨[DAGNode.new, DAGNode.new]⟩ 0 0).1
      (Or.inr (Or.inr (Or.inl rfl)))
  · exact ((c2_createConnection_spec ⟨[DAGNode.new, DAGNode.new]⟩ 0 1).2 (by decide)).1

/-! ### The structural invariant of API-built DAGs -/

/-- The set of direct parents of `v`. -/
def parentsF (g : DAG) (v : Nat) : Finset Nat :=
  (Finset.range g.nodes.length).filter fun u => v ∈ (g.getNode u).out

theorem mem_parentsF {g : DAG} {u v : Nat} :
    u ∈ parentsF g v ↔ Edge g u v := by
  rw [parentsF, Finset.mem_filter, Finset.mem_range, edge_def]

/-- The invariant maintained by `createNode`/`createConnection`: out-lists
hold valid, duplicate-free targets, every incoming counter equals the number
of parents, and the graph is acyclic. -/
structure DagOK (g : DAG) : Prop where
  out_valid : ∀ u < g.nodes.length, ∀ c ∈ (g.getNode u).out, c < g.nodes.length
  out_nodup : ∀ u < g.nodes.length, (g.getNode u).out.Nodup
  counters : ∀ v < g.nodes.length, (g.getNode v).incoming = (parentsF g v).card
  acyclic : Acyclic g

theorem getNode_oob {g : DAG} {i : Nat} (h : g.nodes.length ≤ i) :
    g.getNode i = default := by
  unfold DAG.getNode
  rw [List.getD_eq_getElem?_getD, List.getElem?_eq_none h]
  rfl

theorem dagOK_empty : DagOK DAG.empty where
  out_valid := by intro u hu; simp [DAG.empty] at hu
  out_nodup := by intro u hu; simp [DAG.empty] at hu
  counters := by intro v hv; simp [DAG.empty] at hv
  acyclic := acyclic_empty

theorem getNode_createNode {g : DAG} (i : Nat) :
    (g.createNode.2).getNode i =
      if i < g.nodes.length then g.getNode i
      else if i = g.nodes.length then DAGNode.new else default := by
  unfold DAG.createNode DAG.getNode
  rcases Nat.lt_trichotomy i g.nodes.length with h | h | h
  · rw [if_pos h]
    simp only
    rw [List.getD_eq_getElem?_getD, List.getElem?_append_left h,
      ← List.getD_eq_getElem?_getD]
  · subst h
    rw [if_neg (lt_irrefl _), if_pos rfl]
    simp only
    rw [List.getD_eq_getElem?_getD, List.getElem?_append_right (le_refl _)]
    simp
  · rw [if_neg (by omega), if_neg (by omega)]
    simp only
    rw [List.getD_eq_getElem?_getD, List.getElem?_eq_none (by simp; omega)]
    rfl

theorem length_createNode (g : DAG) :
    g.createNode.2.nodes.length = g.nodes.length + 1 := by
  simp [DAG.createNode]

theorem parentsF_createNode {g : DAG} (hOK : DagOK g) (v : Nat) :
    parentsF (g.createNode.2) v = parentsF g v := by
  ext u
  rw [mem_parentsF, mem_parentsF, edge_def, edge_def, length_createNode,
    getNode_createNode]
  constructor
  · rintro ⟨hu, hmem⟩
    rcases Nat.lt_trichotomy u g.nodes.length with h | h | h
    · rw [if_pos h] at hmem
      exact ⟨h, hmem⟩
    · subst h
      rw [if_neg (lt_irrefl _), if_pos rfl] at hmem
      simp [DAGNode.new] at hmem
    · rw [if_neg (by omega), if_neg (by omega)] at hmem
      simp [DAGNode.new] at hmem
  · rintro ⟨hu, hmem⟩
    exact ⟨by omega, by rw [if_pos hu]; exact hmem⟩

theorem dagOK_createNode {g : DAG} (hOK : DagOK g) : DagOK g.createNode.2 := by
  have hedge := edge_createNode g
  refine ⟨?_, ?_, ?_, ?_⟩
  · intro u hu c hc
    rw [getNode_createNode] at hc
    rw [length_createNode] at hu ⊢
    rcases Nat.lt_trichotomy u g.nodes.length with h | h | h
    · rw [if_pos h] at hc
      exact lt_trans (hOK.out_valid u h c hc) (by omega)
    · subst h
      rw [if_neg (lt_irrefl _), if_pos rfl] at hc
      simp [DAGNode.new] at hc
    · omega
  · intro u hu
    rw [getNode_createNode]
    rcases Nat.lt_trichotomy u g.nodes.length with h | h | h
    · rw [if_pos h]
      exact hOK.out_nodup u h
    · subst h
      rw [if_neg (lt_irrefl _), if_pos rfl]
      simp [DAGNode.new]
    · rw [if_neg (by omega), if_neg (by omega)]
      simp [DAGNode.new]
  · intro v hv
    rw [getNode_createNode, parentsF_createNode hOK]
    rw [length_createNode] at hv
    rcases Nat.lt_trichotomy v g.nodes.length with h | h | h
    · rw [if_pos h]
      exact hOK.counters v h
    · rw [if_neg (by omega), if_pos h]
      have hemp : parentsF g v = ∅ := by
        ext u
        rw [mem_parentsF, edge_def]
        simp only [Finset.not_mem_empty, iff_false, not_and]
        intro hu hmem
        have := hOK.out_valid u hu v hmem
        omega
      rw [hemp]
      rfl
    · omega
  · intro x hx
    exact hOK.acyclic x (reach_congr (fun a b => hedge a b) hx)

theorem connect_incoming_ne {g : DAG} {f t : Nat} (v : Nat) (hvt : v ≠ t) :
    ((⟨connectNodes g.nodes f t⟩ : DAG).getNode v).incoming =
      (g.getNode v).incoming := by
  unfold DAG.getNode connectNodes
  rw [getD_modIdx_ne _ _ _ _ _ hvt]
  by_cases hvf : v = f
  · subst hvf
    rcases Nat.lt_or_ge v g.nodes.length with h | h
    · rw [getD_modIdx_self _ _ _ _ h]
    · rw [getD_modIdx_oob _ _ _ _ _ h]
  · rw [getD_modIdx_ne _ _ _ _ _ hvf]

theorem length_connectNodes (g : DAG) (f t : Nat) :
    (connectNodes g.nodes f t).length = g.nodes.length := by
  simp [connectNodes]

theorem parentsF_connect {g : DAG} {f t : Nat} (hft : f ≠ t)
    (hf : f < g.nodes.length) (v : Nat) :
    parentsF ⟨connectNodes g.nodes f t⟩ v =
      if v = t then insert f (parentsF g v) else parentsF g v := by
  ext u
  rw [mem_parentsF, edge_connect hft hf]
  by_cases hvt : v = t
  · subst hvt
    rw [if_pos rfl, Finset.mem_insert, mem_parentsF]
    constructor
    · rintro (h | ⟨rfl, -⟩)
      · exact Or.inr h
      · exact Or.inl rfl
    · rintro (rfl | h)
      · exact Or.inr ⟨rfl, rfl⟩
      · exact Or.inl h
  · rw [if_neg hvt, mem_parentsF]
    constructor
    · rintro (h | ⟨-, rfl⟩)
      · exact h
      · exact absurd rfl hvt
    · exact Or.inl

theorem not_reach_of_isAncestor_false {g : DAG} {t f : Nat} (htf : t ≠ f)
    (hanc : g.isAncestor t f = false) : ¬ Reach g t f := by
  intro hr
  rw [reach_isAncestor hr htf] at hanc
  exact Bool.true_eq_false.mp hanc

theorem not_mem_out_of_isParent_false {g : DAG} {f t : Nat}
    (hf : f < g.nodes.length) (hpar : g.isParent f t = false) :
    t ∉ (g.getNode f).out := by
  intro hmem
  have : g.isParent f t = true := by
    unfold DAG.isParent DAG.isValid
    simp [hf, hmem]
  rw [this] at hpar
  exact Bool.true_eq_false.mp hpar

theorem dagOK_connect {g : DAG} {f t : Nat} (hOK : DagOK g)
    (hf : f < g.nodes.length) (ht : t < g.nodes.length) (hft : f ≠ t)
    (hanc : g.isAncestor t f = false) (hpar : g.isParent f t = false) :
    DagOK ⟨connectNodes g.nodes f t⟩ := by
  have hnotout : t ∉ (g.getNode f).out := not_mem_out_of_isParent_false hf hpar
  have hfnp : f ∉ parentsF g t := by
    rw [mem_parentsF, edge_def]
    rintro ⟨-, hmem⟩
    exact hnotout hmem
  refine ⟨?_, ?_, ?_, ?_⟩
  · intro u hu c hc
    rw [length_connectNodes] at hu ⊢
    rw [connect_out hft] at hc
    by_cases huf : u = f ∧ f < g.nodes.length
    · rw [if_pos huf] at hc
      rcases List.mem_append.1 hc with h | h
      · exact hOK.out_valid u hu c h
      · simp at h
        subst h
        exact ht
    · rw [if_neg huf] at hc
      exact hOK.out_valid u hu c hc
  · intro u hu
    rw [length_connectNodes] at hu
    rw [connect_out hft]
    by_cases huf : u = f ∧ f < g.nodes.length
    · rw [if_pos huf]
      rw [List.nodup_append]
      refine ⟨hOK.out_nodup u hu, List.nodup_singleton t, ?_⟩
      intro c hc hct
      simp at hct
      subst hct
      rw [huf.1] at hc
      exact hnotout hc
    · rw [if_neg huf]
      exact hOK.out_nodup u hu
  · intro v hv
    rw [length_connectNodes] at hv
    rw [parentsF_connect hft hf]
    by_cases hvt : v = t
    · subst hvt
      rw [if_pos rfl, connect_incoming hft hv, hOK.counters v hv,
        Finset.card_insert_of_not_mem hfnp]
    · rw [if_neg hvt, connect_incoming_ne v hvt]
      exact hOK.counters v hv
  · exact acyclic_connect hft hf hOK.acyclic
      (not_reach_of_isAncestor_false (Ne.symm hft) hanc)

theorem applyDOp_ok {g : DAG} (hOK : DagOK g) (op : DOp) : DagOK (applyDOp g op) := by
  cases op with
  | node => exact dagOK_createNode hOK
  | conn f t =>
    show DagOK (g.createConnection f t).2
    unfold DAG.createConnection
    split_ifs with h1 h2 h3 h4
    · exact hOK
    · exact hOK
    · exact hOK
    · exact hOK
    · simp only [Bool.or_eq_true, Bool.not_eq_true', DAG.isValid,
        decide_eq_false_iff_not, not_or, not_not] at h1
      exact dagOK_connect hOK h1.1 h1.2 h2
        (by cases hb : g.isAncestor t f with
          | false => rfl
          | true => exact absurd hb h3)
        (by cases hb : g.isParent f t with
          | false => rfl
          | true => exact absurd hb h4)

theorem runDOps_ok (ops : List DOp) : DagOK (runDOps ops) := by
  have : ∀ g : DAG, DagOK g → DagOK (ops.foldl applyDOp g) := by
    induction ops with
    | nil => exact fun g h => h
    | cons op ops ih => exact fun g h => ih _ (applyDOp_ok h op)
  exact this DAG.empty dagOK_empty

/-! ## `computeDepth` (Kahn-style longest-path layering, from `src/dag.ts`) -/

/-- One iteration of the inner `for (const childIdx of node.outConnections)`
loop: decrement the working incoming counter, raise the child's depth to
`max(childDepth, poppedDepth + 1)`, and push the child when its counter
reaches zero. -/
def kahnChild (idx : Nat) (st : List DAGNode × List Int × List Nat) (c : Nat) :
    List DAGNode × List Int × List Nat :=
  let ns := st.1
  let inc := st.2.1
  let stk := st.2.2
  let inc' := modIdx inc c (fun x => x - 1)
  let pd := (ns.getD idx default).depth
  let ns' := modIdx ns c fun nd => { nd with depth := max nd.depth (pd + 1) }
  let stk' := if inc'.getD c 0 = 0 then c :: stk else stk
  (ns', inc', stk')

/-- The worklist loop (`while (startNodes.length > 0)`), with the JS
push-to-end/pop-from-end stack represented head-first; the fuel bounds the
number of pops, and `nodes.length` pops always suffice because every node is
pushed at most once. -/
def kahnLoop : Nat → List DAGNode → List Int → List Nat → List DAGNode × List Int
  | _, ns, inc, [] => (ns, inc)
  | 0, ns, inc, _ :: _ => (ns, inc)
  | fuel + 1, ns, inc, idx :: stk =>
    let st := ((ns.getD idx default).out).foldl (kahnChild idx) (ns, inc, stk)
    kahnLoop fuel st.1 st.2.1 st.2.2

/-- `computeDepth()`: seed the worklist with all nodes of incoming count 0
(depth reset to 0), then run the loop on a working copy of the counters. -/
def DAG.computeDepth (g : DAG) : DAG :=
  let n := g.nodes.length
  let inc : List Int := g.nodes.map fun nd => (nd.incoming : Int)
  let starts := (List.range n).filter fun i => (g.getNode i).incoming == 0
  let ns0 := starts.foldl (fun ns i => modIdx ns i fun nd => { nd with depth := 0 }) g.nodes
  let res := kahnLoop n ns0 inc starts.reverse
  ⟨res.1⟩

/-- Invariant of the inner child-processing fold: `done` is the prefix of
`(g.getNode idx).out` already processed, `P` the set of previously popped
nodes (`idx` itself not yet included). -/
structure MInv (g : DAG) (P : Finset Nat) (idx : Nat) (done : List Nat)
    (st : List DAGNode × List Int × List Nat) : Prop where
  len_ns : st.1.length = g.nodes.length
  len_inc : st.2.1.length = g.nodes.length
  out_eq : ∀ i, (st.1.getD i default).out = (g.getNode i).out
  inc_eq : ∀ i, (st.1.getD i default).incoming = (g.getNode i).incoming
  cnt : ∀ v, v < g.nodes.length →
    st.2.1.getD v 0 = (((parentsF g v) \ P).card : Int) - (if v ∈ done then 1 else 0)
  stk_nodup : st.2.2.Nodup
  stk_iff : ∀ v, v ∈ st.2.2 ↔
    ((v < g.nodes.length ∧ v ∉ P ∧ v ≠ idx ∧ parentsF g v ⊆ P)
      ∨ (v ∈ done ∧ parentsF g v ⊆ insert idx P))
  dmono : ∀ u ∈ P, ∀ c ∈ (g.getNode u).out,
    (st.1.getD c default).depth ≥ (st.1.getD u default).depth + 1
  dchild : ∀ c ∈ done, (st.1.getD c default).depth ≥ (st.1.getD idx default).depth + 1

theorem kahnChild_step {g : DAG} (hOK : DagOK g) {P : Finset Nat} {idx : Nat}
    (hidxn : idx < g.nodes.length) (hidxP : idx ∉ P)
    (hclosed : ∀ v ∈ P, parentsF g v ⊆ P)
    {done todo : List Nat} {c : Nat} {st : List DAGNode × List Int × List Nat}
    (hsplit : (g.getNode idx).out = done ++ c :: todo)
    (hM : MInv g P idx done st) :
    MInv g P idx (done ++ [c]) (kahnChild idx st c) := by
  obtain ⟨ns, inc, stk⟩ := st
  have hcout : c ∈ (g.getNode idx).out := by rw [hsplit]; simp
  have hcn : c < g.nodes.length := hOK.out_valid idx hidxn c hcout
  have hedge : Edge g idx c := edge_def.2 ⟨hidxn, hcout⟩
  have hcidx : c ≠ idx := by
    rintro rfl
    exact hOK.acyclic c (Reach.single hedge)
  have hidxpc : idx ∈ parentsF g c := mem_parentsF.2 hedge
  have hcP : c ∉ P := fun hc => hidxP (hclosed c hc hidxpc)
  have hcdone : c ∉ done := by
    intro hc
    have := hOK.out_nodup idx hidxn
    rw [hsplit] at this
    exact (List.disjoint_of_nodup_append this) hc (by simp)
  -- the new working counter of c
  have hcnt_c : (modIdx inc c (fun x => x - 1)).getD c 0 =
      (((parentsF g c) \ P).card : Int) - 1 := by
    rw [getD_modIdx_self _ _ _ _ (by rw [hM.len_inc]; exact hcn),
      hM.cnt c hcn, if_neg hcdone]
    ring
  have hcard_pos : 0 < ((parentsF g c) \ P).card :=
    Finset.card_pos.2 ⟨idx, Finset.mem_sdiff.2 ⟨hidxpc, hidxP⟩⟩
  have hcard_ins : ((parentsF g c) \ insert idx P).card =
      ((parentsF g c) \ P).card - 1 := by
    rw [Finset.sdiff_insert, Finset.card_erase_of_mem (Finset.mem_sdiff.2 ⟨hidxpc, hidxP⟩)]
  have hpush_iff : ((modIdx inc c (fun x => x - 1)).getD c 0 = 0) ↔
      parentsF g c ⊆ insert idx P := by
    rw [hcnt_c]
    constructor
    · intro h
      have hc1 : ((parentsF g c) \ P).card = 1 := by omega
      have : ((parentsF g c) \ insert idx P).card = 0 := by omega
      have hempty := Finset.card_eq_zero.1 this
      intro x hx
      by_contra hxn
      exact absurd (Finset.mem_sdiff.2 ⟨hx, hxn⟩) (by rw [hempty]; exact Finset.not_mem_empty x)
    · intro h
      have : (parentsF g c) \ insert idx P = ∅ :=
        Finset.sdiff_eq_empty_iff_subset.2 h
      have h0 : ((parentsF g c) \ insert idx P).card = 0 := by rw [this]; rfl
      have : ((parentsF g c) \ P).card = 1 := by omega
      rw [this]
      ring
  refine ⟨?_, ?_, ?_, ?_, ?_, ?_, ?_, ?_, ?_⟩
  · simp [kahnChild, hM.len_ns]
  · simp [kahnChild, hM.len_inc]
  · intro i
    show ((modIdx ns c _).getD i default).out = _
    by_cases hic : i = c
    · subst hic
      rw [getD_modIdx_self _ _ _ _ (by rw [hM.len_ns]; exact hcn)]
      exact hM.out_eq i
    · rw [getD_modIdx_ne _ _ _ _ _ hic]
      exact hM.out_eq i
  · intro i
    show ((modIdx ns c _).getD i default).incoming = _
    by_cases hic : i = c
    · subst hic
      rw [getD_modIdx_self _ _ _ _ (by rw [hM.len_ns]; exact hcn)]
      exact hM.inc_eq i
    · rw [getD_modIdx_ne _ _ _ _ _ hic]
      exact hM.inc_eq i
  · intro v hv
    show (modIdx inc c (fun x => x - 1)).getD v 0 = _
    by_cases hvc : v = c
    · subst hvc
      rw [hcnt_c, if_pos (by simp)]
    · rw [getD_modIdx_ne _ _ _ _ _ hvc, hM.cnt v hv]
      have : (v ∈ done ++ [c]) ↔ v ∈ done := by simp [hvc]
      rw [if_congr this rfl rfl]
  · show (if (modIdx inc c (fun x => x - 1)).getD c 0 = 0 then c :: stk else stk).Nodup
    split_ifs with hc0
    · refine List.nodup_cons.2 ⟨?_, hM.stk_nodup⟩
      intro hmem
      rcases (hM.stk_iff c).1 hmem with ⟨-, -, -, hsub⟩ | ⟨hd, -⟩
      · exact hidxP (hsub hidxpc)
      · exact hcdone hd
    · exact hM.stk_nodup
  · intro v
    show v ∈ (if (modIdx inc c (fun x => x - 1)).getD c 0 = 0 then c :: stk else stk) ↔ _
    split_ifs with hc0
    · rw [List.mem_cons]
      constructor
      · rintro (rfl | hmem)
        · exact Or.inr ⟨by simp, hpush_iff.1 hc0⟩
        · rcases (hM.stk_iff v).1 hmem with h | ⟨hd, hsub⟩
          · exact Or.inl h
          · exact Or.inr ⟨by simp [hd], hsub⟩
      · rintro (h | ⟨hd, hsub⟩)
        · exact Or.inr ((hM.stk_iff v).2 (Or.inl h))
        · rcases List.mem_append.1 hd with hd' | hd'
          · exact Or.inr ((hM.stk_iff v).2 (Or.inr ⟨hd', hsub⟩))
          · simp at hd'
            exact Or.inl hd'
    · constructor
      · intro hmem
        rcases (hM.stk_iff v).1 hmem with h | ⟨hd, hsub⟩
        · exact Or.inl h
        · exact Or.inr ⟨by simp [hd], hsub⟩
      · rintro (h | ⟨hd, hsub⟩)
        · exact (hM.stk_iff v).2 (Or.inl h)
        · rcases List.mem_append.1 hd with hd' | hd'
          · exact (hM.stk_iff v).2 (Or.inr ⟨hd', hsub⟩)
          · simp at hd'
            subst hd'
            exact absurd (hpush_iff.2 hsub) hc0
  · intro u huP c' hc'
    have hunec : u ≠ c := fun hc => hcP (hc ▸ huP)
    show ((modIdx ns c _).getD c' default).depth ≥ ((modIdx ns c _).getD u default).depth + 1
    rw [getD_modIdx_ne _ _ _ _ _ hunec]
    by_cases hc'c : c' = c
    · subst hc'c
      rw [getD_modIdx_self _ _ _ _ (by rw [hM.len_ns]; exact hcn)]
      have := hM.dmono u huP c' hc'
      simp only [ge_iff_le]
      calc (ns.getD u default).depth + 1 ≤ (ns.getD c' default).depth := hM.dmono u huP c' hc'
        _ ≤ max (ns.getD c' default).depth ((ns.getD idx default).depth + 1) := le_max_left _ _
    · rw [getD_modIdx_ne _ _ _ _ _ hc'c]
      exact hM.dmono u huP c' hc'
  · intro c' hc'
    show ((modIdx ns c _).getD c' default).depth ≥ ((modIdx ns c _).getD idx default).depth + 1
    rw [getD_modIdx_ne _ _ _ _ _ (Ne.symm hcidx)]
    rcases List.mem_append.1 hc' with hd | hd
    · have hc'c : c' ≠ c := fun hcc => hcdone (hcc ▸ hd)
      rw [getD_modIdx_ne _ _ _ _ _ hc'c]
      exact hM.dchild c' hd
    · simp at hd
      subst hd
      rw [getD_modIdx_self _ _ _ _ (by rw [hM.len_ns]; exact hcn)]
      simp only [ge_iff_le]
      exact le_max_right _ _

theorem kahnFold {g : DAG} (hOK : DagOK g) {P : Finset Nat} {idx : Nat}
    (hidxn : idx < g.nodes.length) (hidxP : idx ∉ P)
    (hclosed : ∀ v ∈ P, parentsF g v ⊆ P) :
    ∀ (todo done : List Nat) (st : List DAGNode × List Int × List Nat),
      (g.getNode idx).out = done ++ todo →
      MInv g P idx done st →
      MInv g P idx (g.getNode idx).out (todo.foldl (kahnChild idx) st) := by
  intro todo
  induction todo with
  | nil =>
    intro done st hsplit hM
    rw [List.foldl_nil]
    rw [List.append_nil] at hsplit
    rw [hsplit]
    exact hM
  | cons c todo' ih =>
    intro done st hsplit hM
    rw [List.foldl_cons]
    exact ih (done ++ [c]) _ (by rw [hsplit, List.append_assoc]; rfl)
      (kahnChild_step hOK hidxn hidxP hclosed hsplit hM)

/-- Invariant of the outer worklist loop: `P` is the set of popped nodes. -/
structure KInv (g : DAG) (P : Finset Nat)
    (st : List DAGNode × List Int × List Nat) : Prop where
  len_ns : st.1.length = g.nodes.length
  len_inc : st.2.1.length = g.nodes.length
  out_eq : ∀ i, (st.1.getD i default).out = (g.getNode i).out
  inc_eq : ∀ i, (st.1.getD i default).incoming = (g.getNode i).incoming
  Psub : P ⊆ Finset.range g.nodes.length
  cnt : ∀ v, v < g.nodes.length →
    st.2.1.getD v 0 = (((parentsF g v) \ P).card : Int)
  stk_nodup : st.2.2.Nodup
  stk_iff : ∀ v, v ∈ st.2.2 ↔
    (v < g.nodes.length ∧ v ∉ P ∧ parentsF g v ⊆ P)
  dmono : ∀ u ∈ P, ∀ c ∈ (g.getNode u).out,
    (st.1.getD c default).depth ≥ (st.1.getD u default).depth + 1
  closed : ∀ v ∈ P, parentsF g v ⊆ P

/-- Popping the top of the stack and fully processing its children restores
the outer invariant with the popped node added to `P`. -/
theorem kahn_pop {g : DAG} (hOK : DagOK g) {P : Finset Nat} {idx : Nat}
    {ns : List DAGNode} {inc : List Int} {stk : List Nat}
    (hK : KInv g P (ns, inc, idx :: stk)) :
    KInv g (insert idx P)
      (((g.getNode idx).out).foldl (kahnChild idx) (ns, inc, stk)) := by
  have hidx := (hK.stk_iff idx).1 (by simp)
  obtain ⟨hidxn, hidxP, hidxpar⟩ := hidx
  have hidxnostk : idx ∉ stk := (List.nodup_cons.1 hK.stk_nodup).1
  -- the invariant at the start of the fold
  have hM0 : MInv g P idx [] (ns, inc, stk) := by
    refine ⟨hK.len_ns, hK.len_inc, hK.out_eq, hK.inc_eq, ?_, ?_, ?_, hK.dmono, ?_⟩
    · intro v hv
      rw [hK.cnt v hv, if_neg (List.not_mem_nil v)]
      ring
    · exact (List.nodup_cons.1 hK.stk_nodup).2
    · intro v
      constructor
      · intro hmem
        have hv := (hK.stk_iff v).1 (List.mem_cons_of_mem idx hmem)
        have hvidx : v ≠ idx := fun hc => hidxnostk (hc ▸ hmem)
        exact Or.inl ⟨hv.1, hv.2.1, hvidx, hv.2.2⟩
      · rintro (⟨hvn, hvP, hvidx, hsub⟩ | ⟨hd, -⟩)
        · rcases List.mem_cons.1 ((hK.stk_iff v).2 ⟨hvn, hvP, hsub⟩) with rfl | h
          · exact absurd rfl hvidx
          · exact h
        · exact absurd hd (List.not_mem_nil v)
    · intro c hc
      exact absurd hc (List.not_mem_nil c)
  have hM := kahnFold hOK hidxn hidxP hK.closed (g.getNode idx).out [] _ (by simp) hM0
  have hselfnot : ∀ c ∈ (g.getNode idx).out, c ≠ idx := by
    intro c hc hcidx
    subst hcidx
    exact hOK.acyclic c (Reach.single (edge_def.2 ⟨hidxn, hc⟩))
  have houtP : ∀ c ∈ (g.getNode idx).out, c ∉ P := by
    intro c hc hcP
    exact hidxP (hK.closed c hcP (mem_parentsF.2 (edge_def.2 ⟨hidxn, hc⟩)))
  refine ⟨hM.len_ns, hM.len_inc, hM.out_eq, hM.inc_eq, ?_, ?_, hM.stk_nodup, ?_, ?_, ?_⟩
  · intro v hv
    rcases Finset.mem_insert.1 hv with rfl | hv'
    · exact Finset.mem_range.2 hidxn
    · exact hK.Psub hv'
  · intro v hv
    rw [hM.cnt v hv]
    by_cases hvout : v ∈ (g.getNode idx).out
    · rw [if_pos hvout]
      have hidxin : idx ∈ (parentsF g v) \ P :=
        Finset.mem_sdiff.2 ⟨mem_parentsF.2 (edge_def.2 ⟨hidxn, hvout⟩), hidxP⟩
      have : ((parentsF g v) \ insert idx P).card = ((parentsF g v) \ P).card - 1 := by
        rw [Finset.sdiff_insert, Finset.card_erase_of_mem hidxin]
      have hpos : 0 < ((parentsF g v) \ P).card := Finset.card_pos.2 ⟨idx, hidxin⟩
      rw [this]
      push_cast [Nat.cast_sub (by omega : 1 ≤ ((parentsF g v) \ P).card)]
      ring
    · rw [if_neg hvout]
      have : (parentsF g v) \ insert idx P = (parentsF g v) \ P := by
        rw [Finset.sdiff_insert]
        rw [Finset.erase_eq_of_not_mem]
        intro hmem
        exact hvout ((edge_def.1 (mem_parentsF.1 (Finset.mem_sdiff.1 hmem).1)).2)
      rw [this]
      ring
  · intro v
    rw [hM.stk_iff v]
    constructor
    · rintro (⟨hvn, hvP, hvidx, hsub⟩ | ⟨hd, hsub⟩)
      · exact ⟨hvn, by simp [hvidx, hvP], fun x hx => Finset.mem_insert_of_mem (hsub hx)⟩
      · refine ⟨hOK.out_valid idx hidxn v hd, ?_, hsub⟩
        simp only [Finset.mem_insert, not_or]
        exact ⟨hselfnot v hd, houtP v hd⟩
    · rintro ⟨hvn, hvP, hsub⟩
      simp only [Finset.mem_insert, not_or] at hvP
      by_cases hvout : v ∈ (g.getNode idx).out
      · exact Or.inr ⟨hvout, hsub⟩
      · refine Or.inl ⟨hvn, hvP.2, hvP.1, ?_⟩
        intro x hx
        rcases Finset.mem_insert.1 (hsub hx) with rfl | h
        · exact absurd ((edge_def.1 (mem_parentsF.1 hx)).2) hvout
        · exact h
  · intro u hu c hc
    rcases Finset.mem_insert.1 hu with rfl | hu'
    · exact hM.dchild c hc
    · exact hM.dmono u hu' c hc
  · intro v hv
    rcases Finset.mem_insert.1 hv with rfl | hv'
    · exact fun x hx => Finset.mem_insert_of_mem (hidxpar hx)
    · exact fun x hx => Finset.mem_insert_of_mem (hK.closed v hv' hx)

/-- When the worklist is empty, every valid node has been popped: otherwise
the unpopped nodes would all keep an unpopped parent, yielding an infinite
ancestor chain in a finite acyclic graph. -/
theorem kahn_complete {g : DAG} (hOK : DagOK g) {P : Finset Nat}
    (hPsub : P ⊆ Finset.range g.nodes.length)
    (hstk : ∀ v, ¬ (v < g.nodes.length ∧ v ∉ P ∧ parentsF g v ⊆ P)) :
    ∀ v < g.nodes.length, v ∈ P := by
  by_contra hcon
  push_neg at hcon
  obtain ⟨v₀, hv₀n, hv₀P⟩ := hcon
  set S : Finset Nat := (Finset.range g.nodes.length) \ P with hS
  have hv₀S : v₀ ∈ S := Finset.mem_sdiff.2 ⟨Finset.mem_range.2 hv₀n, hv₀P⟩
  have hstep : ∀ v ∈ S, ∃ p, p ∈ S ∧ Edge g p v := by
    intro v hv
    obtain ⟨hvr, hvP⟩ := Finset.mem_sdiff.1 hv
    have hvn := Finset.mem_range.1 hvr
    have : ¬ parentsF g v ⊆ P := fun hsub => hstk v ⟨hvn, hvP, hsub⟩
    obtain ⟨p, hp, hpP⟩ := Finset.not_subset.1 this
    have hpn : p < g.nodes.length := (edge_def.1 (mem_parentsF.1 hp)).1
    exact ⟨p, Finset.mem_sdiff.2 ⟨Finset.mem_range.2 hpn, hpP⟩, mem_parentsF.1 hp⟩
  have hstep' : ∀ v : Nat, ∃ p : Nat, v ∈ S → (p ∈ S ∧ Edge g p v) := by
    intro v
    by_cases hv : v ∈ S
    · obtain ⟨p, hp⟩ := hstep v hv
      exact ⟨p, fun _ => hp⟩
    · exact ⟨0, fun h => absurd h hv⟩
  choose f hf using hstep'
  set F : Nat → Nat := fun k => f^[k] v₀ with hF
  have hFS : ∀ k, F k ∈ S := by
    intro k
    induction k with
    | zero => exact hv₀S
    | succ k ih =>
      have : F (k + 1) = f (F k) := Function.iterate_succ_apply' f k v₀
      rw [this]
      exact (hf (F k) ih).1
  have hFedge : ∀ k, Edge g (F (k + 1)) (F k) := by
    intro k
    have : F (k + 1) = f (F k) := Function.iterate_succ_apply' f k v₀
    rw [this]
    exact (hf (F k) (hFS k)).2
  have hFreach : ∀ k m, Reach g (F (k + m + 1)) (F k) := by
    intro k m
    induction m with
    | zero => exact Reach.single (hFedge k)
    | succ m ih =>
      have : k + (m + 1) + 1 = (k + m + 1) + 1 := by omega
      rw [this]
      exact Reach.cons (hFedge (k + m + 1)) ih
  -- pigeonhole: among n+1 iterates two coincide
  have hcard : S.card < (Finset.range (g.nodes.length + 1)).card := by
    rw [Finset.card_range, hS]
    have h1 := Finset.card_le_card (Finset.sdiff_subset (s := Finset.range g.nodes.length) (t := P))
    rw [Finset.card_range] at h1
    omega
  have hmaps : ∀ k ∈ Finset.range (g.nodes.length + 1), F k ∈ S := fun k _ => hFS k
  obtain ⟨i, hi, j, hj, hij, hFij⟩ :=
    Finset.exists_ne_map_eq_of_card_lt_of_maps_to hcard hmaps
  rcases Nat.lt_or_ge i j with hlt | hge
  · have : Reach g (F j) (F i) := by
      have hj' : j = i + (j - i - 1) + 1 := by omega
      rw [hj']
      exact hFreach i (j - i - 1)
    rw [hFij] at this
    exact hOK.acyclic (F j) this
  · have hlt' : j < i := by omega
    have : Reach g (F i) (F j) := by
      have hi' : i = j + (i - j - 1) + 1 := by omega
      rw [hi']
      exact hFreach j (i - j - 1)
    rw [← hFij] at this
    exact hOK.acyclic (F i) this

/-- Full correctness of the worklist loop: with enough fuel it terminates
with every edge strictly increasing in depth, and the node structure (lengths,
out-lists, incoming counts) untouched. -/
theorem kahnLoop_spec {g : DAG} (hOK : DagOK g) :
    ∀ (fuel : Nat) (P : Finset Nat) (ns : List DAGNode) (inc : List Int)
      (stk : List Nat),
      KInv g P (ns, inc, stk) → g.nodes.length - P.card ≤ fuel →
      (kahnLoop fuel ns inc stk).1.length = g.nodes.length
      ∧ (∀ i, ((kahnLoop fuel ns inc stk).1.getD i default).out = (g.getNode i).out)
      ∧ (∀ i, ((kahnLoop fuel ns inc stk).1.getD i default).incoming
          = (g.getNode i).incoming)
      ∧ (∀ a b, Edge g a b →
          ((kahnLoop fuel ns inc stk).1.getD b default).depth
            ≥ ((kahnLoop fuel ns inc stk).1.getD a default).depth + 1) := by
  intro fuel
  induction fuel with
  | zero =>
    intro P ns inc stk hK hfuel
    cases stk with
    | nil =>
      rw [kahnLoop]
      have hall := kahn_complete hOK hK.Psub
        (fun v hc => by rw [← hK.stk_iff v] at hc; exact (List.not_mem_nil v) hc)
      exact ⟨hK.len_ns, hK.out_eq, hK.inc_eq, fun a b he =>
        hK.dmono a (hall a (edge_def.1 he).1) b (edge_def.1 he).2⟩
    | cons idx stk' =>
      exfalso
      have hidx := (hK.stk_iff idx).1 (by simp)
      have : P.card < g.nodes.length := by
        have hsub : P ⊆ (Finset.range g.nodes.length).erase idx := by
          intro x hx
          exact Finset.mem_erase.2 ⟨fun hc => hidx.2.1 (hc ▸ hx), hK.Psub hx⟩
        have := Finset.card_le_card hsub
        rw [Finset.card_erase_of_mem (Finset.mem_range.2 hidx.1), Finset.card_range] at this
        omega
      omega
  | succ fuel ih =>
    intro P ns inc stk hK hfuel
    cases stk with
    | nil =>
      rw [kahnLoop]
      have hall := kahn_complete hOK hK.Psub
        (fun v hc => by rw [← hK.stk_iff v] at hc; exact (List.not_mem_nil v) hc)
      exact ⟨hK.len_ns, hK.out_eq, hK.inc_eq, fun a b he =>
        hK.dmono a (hall a (edge_def.1 he).1) b (edge_def.1 he).2⟩
    | cons idx stk' =>
      rw [kahnLoop]
      have hidx := (hK.stk_iff idx).1 (by simp)
      have hout : (ns.getD idx default).out = (g.getNode idx).out := hK.out_eq idx
      rw [hout]
      have hK' := kahn_pop hOK hK
      have hcard : P.card < g.nodes.length := by
        have hsub : P ⊆ (Finset.range g.nodes.length).erase idx := by
          intro x hx
          exact Finset.mem_erase.2 ⟨fun hc => hidx.2.1 (hc ▸ hx), hK.Psub hx⟩
        have := Finset.card_le_card hsub
        rw [Finset.card_erase_of_mem (Finset.mem_range.2 hidx.1), Finset.card_range] at this
        omega
      have hfuel' : g.nodes.length - (insert idx P).card ≤ fuel := by
        rw [Finset.card_insert_of_not_mem hidx.2.1]
        omega
      exact ih (insert idx P) _ _ _ hK' hfuel'

theorem getD_modIdx_preserve {β : Type} (proj : DAGNode → β) (ns : List DAGNode)
    (i j : Nat) (f : DAGNode → DAGNode) (hf : ∀ nd, proj (f nd) = proj nd) :
    proj ((modIdx ns i f).getD j default) = proj (ns.getD j default) := by
  by_cases hij : j = i
  · subst hij
    rcases Nat.lt_or_ge j ns.length with h | h
    · rw [getD_modIdx_self _ _ _ _ h, hf]
    · rw [getD_modIdx_oob _ _ _ _ _ h]
  · rw [getD_modIdx_ne _ _ _ _ _ hij]

theorem foldl_setDepth_len (l : List Nat) (ns : List DAGNode) :
    (l.foldl (fun ns i => modIdx ns i fun nd => { nd with depth := 0 }) ns).length
      = ns.length := by
  induction l generalizing ns with
  | nil => rfl
  | cons i l ih => rw [List.foldl_cons, ih, length_modIdx]

theorem foldl_setDepth_preserve {β : Type} (proj : DAGNode → β)
    (hproj : ∀ nd d, proj { nd with depth := d } = proj nd)
    (l : List Nat) (ns : List DAGNode) (j : Nat) :
    proj ((l.foldl (fun ns i => modIdx ns i fun nd => { nd with depth := 0 }) ns).getD
        j default) = proj (ns.getD j default) := by
  induction l generalizing ns with
  | nil => rfl
  | cons i l ih =>
    rw [List.foldl_cons, ih, getD_modIdx_preserve proj ns i j _ (fun nd => hproj nd 0)]

theorem getD_map_incoming (g : DAG) (v : Nat) (hv : v < g.nodes.length) :
    (g.nodes.map fun nd => (nd.incoming : Int)).getD v 0
      = ((g.getNode v).incoming : Int) := by
  unfold DAG.getNode
  rw [List.getD_eq_getElem?_getD, List.getD_eq_getElem?_getD, List.getElem?_map,
    List.getElem?_eq_getElem hv]
  rfl

/-- The full behavioural specification of `computeDepth` on an invariant
DAG: structure untouched, and every edge strictly increases depth. -/
theorem computeDepth_spec {g : DAG} (hOK : DagOK g) :
    g.computeDepth.nodes.length = g.nodes.length
    ∧ (∀ i, (g.computeDepth.getNode i).out = (g.getNode i).out)
    ∧ (∀ i, (g.computeDepth.getNode i).incoming = (g.getNode i).incoming)
    ∧ (∀ a b, Edge g a b →
        (g.computeDepth.getNode b).depth ≥ (g.computeDepth.getNode a).depth + 1) := by
  have hK : KInv g ∅
      (((List.range g.nodes.length).filter fun i => (g.getNode i).incoming == 0).foldl
          (fun ns i => modIdx ns i fun nd => { nd with depth := 0 }) g.nodes,
        g.nodes.map fun nd => (nd.incoming : Int),
        ((List.range g.nodes.length).filter fun i => (g.getNode i).incoming == 0).reverse) := by
    refine ⟨?_, ?_, ?_, ?_, ?_, ?_, ?_, ?_, ?_, ?_⟩
    · exact foldl_setDepth_len _ _
    · exact List.length_map _ _
    · intro i
      exact foldl_setDepth_preserve DAGNode.out (fun nd d => rfl) _ _ i
    · intro i
      exact foldl_setDepth_preserve DAGNode.incoming (fun nd d => rfl) _ _ i
    · exact Finset.empty_subset _
    · intro v hv
      show (g.nodes.map fun nd => (nd.incoming : Int)).getD v 0 = _
      rw [getD_map_incoming g v hv, hOK.counters v hv, Finset.sdiff_empty]
    · exact List.nodup_reverse.2 (List.Nodup.filter _ (List.nodup_range _))
    · intro v
      rw [List.mem_reverse, List.mem_filter, List.mem_range]
      constructor
      · rintro ⟨hv, hz⟩
        simp only [beq_iff_eq] at hz
        refine ⟨hv, Finset.not_mem_empty v, ?_⟩
        have : (parentsF g v).card = 0 := by rw [← hOK.counters v hv]; exact hz
        rw [Finset.card_eq_zero.1 this]
      · rintro ⟨hv, -, hsub⟩
        refine ⟨hv, ?_⟩
        simp only [beq_iff_eq]
        rw [hOK.counters v hv]
        exact Finset.card_eq_zero.2 (Finset.subset_empty.1 hsub)
    · intro u hu
      exact absurd hu (Finset.not_mem_empty u)
    · intro v hv
      exact absurd hv (Finset.not_mem_empty v)
  have hspec := kahnLoop_spec hOK g.nodes.length ∅ _ _ _ hK
    (by rw [Finset.card_empty]; omega)
  unfold DAG.computeDepth
  exact ⟨hspec.1, hspec.2.1, hspec.2.2.1, hspec.2.2.2⟩

theorem edge_computeDepth {g : DAG} (hOK : DagOK g) (a b : Nat) :
    Edge g.computeDepth a b ↔ Edge g a b := by
  rw [edge_def, edge_def, (computeDepth_spec hOK).1, (computeDepth_spec hOK).2.1]

/-- C3: after `computeDepth()` on a DAG built by any sequence of
`createNode`/`createConnection` calls, every edge `(a, b)` satisfies
`depth(b) > depth(a)`. -/
theorem c3_depth_monotone (ops : List DOp) (a b : Nat)
    (h : (runDOps ops).computeDepth.isParent a b = true) :
    ((runDOps ops).computeDepth.getNode b).depth
      > ((runDOps ops).computeDepth.getNode a).depth := by
  have hOK := runDOps_ok ops
  have he : Edge (runDOps ops) a b := (edge_computeDepth hOK a b).1 h
  have := (computeDepth_spec hOK).2.2.2 a b he
  omega

/-- Witness for C3: the two-node chain `0 → 1` after `computeDepth`. -/
theorem c3_witness :
    ((runDOps [DOp.node, DOp.node, DOp.conn 0 1]).computeDepth.getNode 1).depth
      > ((runDOps [DOp.node, DOp.node, DOp.conn 0 1]).computeDepth.getNode 0).depth :=
  c3_depth_monotone [DOp.node, DOp.node, DOp.conn 0 1] 0 1 (by decide)

/-! ## The Genome (translated from `src/genome.ts`) -/

inductive ActivationType
  | none
  | sigmoid
  | relu
  | tanh
  deriving Repr, DecidableEq, Inhabited

inductive NodeType
  | input
  | hidden
  | output
  deriving Repr, DecidableEq, Inhabited

structure GenomeNode where
  id : Nat
  type : NodeType
  activation : ActivationType
  bias : Rat := 0
  depth : Nat := 0
  deriving Repr, DecidableEq, Inhabited

structure GenomeConnection where
  fromNode : Nat
  toNode : Nat
  weight : Rat
  enabled : Bool := true
  deriving Repr, DecidableEq, Inhabited

structure NetworkInfo where
  inputs : Nat
  outputs : Nat
  hidden : Nat
  deriving Repr, DecidableEq, Inhabited

structure Genome where
  nodes : List GenomeNode
  connections : List GenomeConnection
  dag : DAG
  info : NetworkInfo
  deriving Repr, DecidableEq, Inhabited

namespace Genome

/-- `createNode(activation, type)`: register in the DAG and append the
genome node; hidden nodes bump the hidden count. -/
def createNode (g : Genome) (activation : ActivationType)
    (type : NodeType := NodeType.hidden) : Nat × Genome :=
  let nodeId := g.dag.createNode.1
  let dag' := g.dag.createNode.2
  let node : GenomeNode := { id := nodeId, type := type, activation := activation }
  let info' := if type = NodeType.hidden
    then { g.info with hidden := g.info.hidden + 1 } else g.info
  (nodeId, { g with dag := dag', nodes := g.nodes ++ [node], info := info' })

/-- The `Genome(inputs, outputs)` constructor: `inputs` Identity-activation
input nodes, then `outputs` Tanh-activation output nodes. -/
def new (inputs outputs : Nat) : Genome :=
  let g0 : Genome := ⟨[], [], DAG.empty, ⟨inputs, outputs, 0⟩⟩
  let g1 := (List.range inputs).foldl
    (fun g _ => (g.createNode ActivationType.none NodeType.input).2) g0
  (List.range outputs).foldl
    (fun g _ => (g.createNode ActivationType.tanh NodeType.output).2) g1

/-- `createConnection(from, to, weight)`: validate through the DAG; on
success append an enabled connection record. -/
def createConnection (g : Genome) (f t : Nat) (weight : Rat) : Bool × Genome :=
  let conn : GenomeConnection := { fromNode := f, toNode := t, weight := weight }
  if (g.dag.createConnection f t).1 then
    (true, { g with
      dag := (g.dag.createConnection f t).2,
      connections := g.connections ++ [conn] })
  else (false, g)

/-- `splitConnection(index)`: disable the connection, insert a ReLU hidden
node, reconnect through it. -/
def splitConnection (g : Genome) (i : Nat) : Bool × Genome :=
  if i < g.connections.length then
    let connection := g.connections.getD i default
    if connection.enabled = false then (false, g)
    else
      let newNodeId := (g.createNode ActivationType.relu NodeType.hidden).1
      let g1 := (g.createNode ActivationType.relu NodeType.hidden).2
      let g2 := { g1 with
        connections := modIdx g1.connections i fun c => { c with enabled := false } }
      let g3 := (g2.createConnection connection.fromNode newNodeId connection.weight).2
      let g4 := (g3.createConnection newNodeId connection.toNode 1).2
      (true, g4)
  else (false, g)

/-- `updateNodeBias(nodeIndex, bias)`. -/
def updateNodeBias (g : Genome) (i : Nat) (bias : Rat) : Genome :=
  if i < g.nodes.length then
    { g with nodes := modIdx g.nodes i fun nd => { nd with bias := bias } }
  else g

/-- `updateConnectionWeight(connectionIndex, weight)`. -/
def updateConnectionWeight (g : Genome) (i : Nat) (weight : Rat) : Genome :=
  if i < g.connections.length then
    { g with connections := modIdx g.connections i fun c => { c with weight := weight } }
  else g

/-- `isInputNode` / `isOutputNode` / `isHiddenNode`: pure index-range
checks. -/
def isInputNode (g : Genome) (i : Nat) : Bool := i < g.info.inputs

def isOutputNode (g : Genome) (i : Nat) : Bool :=
  g.info.inputs ≤ i && i < g.info.inputs + g.info.outputs

def isHiddenNode (g : Genome) (i : Nat) : Bool := g.info.inputs + g.info.outputs ≤ i

/-- `computeDepth()`: delegate to the DAG, copy depths back, then force all
output nodes to the deepest layer (`max(maxDepth, 1)`). -/
def computeDepth (g : Genome) : Genome :=
  let dag' := g.dag.computeDepth
  let nodes' := (List.range g.nodes.length).map fun i =>
    { g.nodes.getD i default with depth := (dag'.getNode i).depth }
  let maxDepth := (nodes'.map GenomeNode.depth).foldl max 0
  let outputDepth := max maxDepth 1
  let nodes'' := (List.range nodes'.length).map fun i =>
    if g.info.inputs ≤ i ∧ i < g.info.inputs + g.info.outputs then
      { nodes'.getD i default with depth := outputDepth }
    else nodes'.getD i default
  { g with dag := dag', nodes := nodes'' }

/-- `clone()`: rebuild input/output blocks, re-create hidden nodes in order,
re-insert only the enabled connections, then copy all biases by index. -/
def clone (g : Genome) : Genome :=
  let c0 := Genome.new g.info.inputs g.info.outputs
  let c1 := g.nodes.foldl
    (fun c nd => if nd.type = NodeType.hidden
      then (c.createNode nd.activation NodeType.hidden).2 else c) c0
  let c2 := g.connections.foldl
    (fun c conn => if conn.enabled
      then (c.createConnection conn.fromNode conn.toNode conn.weight).2 else c) c1
  { c2 with nodes := (List.range c2.nodes.length).map fun i =>
      if i < g.nodes.length then
        { c2.nodes.getD i default with bias := (g.nodes.getD i default).bias }
      else c2.nodes.getD i default }

end Genome

/-- A sequence of genome mutations (the claim's "any number of createNode
and splitConnection calls", plus the other mutating genome methods). -/
inductive GOp
  | node (act : ActivationType) (ty : NodeType)
  | conn (f t : Nat) (w : Rat)
  | split (i : Nat)
  | setBias (i : Nat) (b : Rat)
  | setWeight (i : Nat) (w : Rat)
  | depth
  deriving Repr

def applyGOp (g : Genome) : GOp → Genome
  | GOp.node act ty => (g.createNode act ty).2
  | GOp.conn f t w => (g.createConnection f t w).2
  | GOp.split i => (g.splitConnection i).2
  | GOp.setBias i b => g.updateNodeBias i b
  | GOp.setWeight i w => g.updateConnectionWeight i w
  | GOp.depth => g.computeDepth

/-- Run genome operations on a freshly constructed `Genome(inputs, outputs)`. -/
def runGOps (inputs outputs : Nat) (ops : List GOp) : Genome :=
  ops.foldl applyGOp (Genome.new inputs outputs)

theorem createNode_info_io (g : Genome) (act : ActivationType) (ty : NodeType) :
    (g.createNode act ty).2.info.inputs = g.info.inputs
    ∧ (g.createNode act ty).2.info.outputs = g.info.outputs := by
  unfold Genome.createNode
  split_ifs <;> exact ⟨rfl, rfl⟩

theorem createConnection_info (g : Genome) (f t : Nat) (w : Rat) :
    (g.createConnection f t w).2.info = g.info := by
  unfold Genome.createConnection
  split_ifs <;> rfl

theorem applyGOp_info_io (g : Genome) (op : GOp) :
    (applyGOp g op).info.inputs = g.info.inputs
    ∧ (applyGOp g op).info.outputs = g.info.outputs := by
  cases op with
  | node act ty => exact createNode_info_io g act ty
  | conn f t w => rw [show applyGOp g (GOp.conn f t w) = (g.createConnection f t w).2 from rfl,
      createConnection_info]; exact ⟨rfl, rfl⟩
  | split i =>
    show (g.splitConnection i).2.info.inputs = _ ∧ (g.splitConnection i).2.info.outputs = _
    simp only [Genome.splitConnection]
    split_ifs with h1 h2
    · exact ⟨rfl, rfl⟩
    · rw [createConnection_info, createConnection_info]
      exact createNode_info_io g ActivationType.relu NodeType.hidden
    · exact ⟨rfl, rfl⟩
  | setBias i b =>
    show (g.updateNodeBias i b).info.inputs = _ ∧ (g.updateNodeBias i b).info.outputs = _
    unfold Genome.updateNodeBias
    split_ifs <;> exact ⟨rfl, rfl⟩
  | setWeight i w =>
    show (g.updateConnectionWeight i w).info.inputs = _
      ∧ (g.updateConnectionWeight i w).info.outputs = _
    unfold Genome.updateConnectionWeight
    split_ifs <;> exact ⟨rfl, rfl⟩
  | depth => exact ⟨rfl, rfl⟩

theorem new_info (inputs outputs : Nat) :
    (Genome.new inputs outputs).info.inputs = inputs
    ∧ (Genome.new inputs outputs).info.outputs = outputs := by
  unfold Genome.new
  have hfold : ∀ (l : List Nat) (act : ActivationType) (ty : NodeType) (g : Genome),
      (l.foldl (fun g _ => (g.createNode act ty).2) g).info.inputs = g.info.inputs
      ∧ (l.foldl (fun g _ => (g.createNode act ty).2) g).info.outputs = g.info.outputs := by
    intro l
    induction l with
    | nil => exact fun act ty g => ⟨rfl, rfl⟩
    | cons x xs ih =>
      intro act ty g
      rw [List.foldl_cons]
      rw [(ih act ty _).1, (ih act ty _).2]
      exact createNode_info_io g act ty
  rw [(hfold _ _ _ _).1, (hfold _ _ _ _).2, (hfold _ _ _ _).1, (hfold _ _ _ _).2]
  exact ⟨rfl, rfl⟩

theorem runGOps_info_io (inputs outputs : Nat) (ops : List GOp) :
    (runGOps inputs outputs ops).info.inputs = inputs
    ∧ (runGOps inputs outputs ops).info.outputs = outputs := by
  have hfold : ∀ (l : List GOp) (g : Genome),
      (l.foldl applyGOp g).info.inputs = g.info.inputs
      ∧ (l.foldl applyGOp g).info.outputs = g.info.outputs := by
    intro l
    induction l with
    | nil => exact fun g => ⟨rfl, rfl⟩
    | cons op ops ih =>
      intro g
      rw [List.foldl_cons]
      rw [(ih _).1, (ih _).2]
      exact applyGOp_info_io g op
  unfold runGOps
  rw [(hfold _ _).1, (hfold _ _).2]
  exact new_info inputs outputs

/-- C7: index ranges determine node roles, and this persists across every
sequence of genome mutations (in particular `createNode`/`splitConnection`):
`[0, inputs)` are inputs only, `[inputs, inputs+outputs)` outputs only, and
everything at `inputs+outputs` or beyond is hidden only. -/
theorem c7_index_roles (inputs outputs : Nat) (ops : List GOp) (i : Nat) :
    (i < inputs →
      (runGOps inputs outputs ops).isInputNode i = true
      ∧ (runGOps inputs outputs ops).isOutputNode i = false
      ∧ (runGOps inputs outputs ops).isHiddenNode i = false)
    ∧ (inputs ≤ i → i < inputs + outputs →
      (runGOps inputs outputs ops).isOutputNode i = true
      ∧ (runGOps inputs outputs ops).isInputNode i = false
      ∧ (runGOps inputs outputs ops).isHiddenNode i = false)
    ∧ (inputs + outputs ≤ i →
      (runGOps inputs outputs ops).isHiddenNode i = true
      ∧ (runGOps inputs outputs ops).isInputNode i = false
      ∧ (runGOps inputs outputs ops).isOutputNode i = false) := by
  obtain ⟨hin, hout⟩ := runGOps_info_io inputs outputs ops
  unfold Genome.isInputNode Genome.isOutputNode Genome.isHiddenNode
  rw [hin, hout]
  refine ⟨?_, ?_, ?_⟩
  · intro h
    refine ⟨by simpa using h, ?_, ?_⟩
    · simp only [Bool.and_eq_false_iff, decide_eq_false_iff_not, not_le]
      exact Or.inl h
    · simp only [decide_eq_false_iff_not, not_le]
      omega
  · intro h1 h2
    refine ⟨?_, ?_, ?_⟩
    · simp only [Bool.and_eq_true, decide_eq_true_eq]
      exact ⟨h1, h2⟩
    · simp only [decide_eq_false_iff_not, not_lt]
      exact h1
    · simp only [decide_eq_false_iff_not, not_le]
      exact h2
  · intro h
    refine ⟨by simpa using h, ?_, ?_⟩
    · simp only [decide_eq_false_iff_not, not_lt]
      omega
    · simp only [Bool.and_eq_false_iff, decide_eq_false_iff_not, not_lt]
      omega

/-- Witness for C7: a 2-input/1-output genome after a concrete
create-node/create-connection/split sequence. -/
theorem c7_witness :
    (runGOps 2 1 [GOp.conn 0 2 1, GOp.split 0]).isInputNode 0 = true
    ∧ (runGOps 2 1 [GOp.conn 0 2 1, GOp.split 0]).isOutputNode 2 = true
    ∧ (runGOps 2 1 [GOp.conn 0 2 1, GOp.split 0]).isHiddenNode 3 = true := by
  refine ⟨((c7_index_roles 2 1 [GOp.conn 0 2 1, GOp.split 0] 0).1 (by decide)).1,
    ((c7_index_roles 2 1 [GOp.conn 0 2 1, GOp.split 0] 2).2.1 (by decide) (by decide)).1,
    ((c7_index_roles 2 1 [GOp.conn 0 2 1, GOp.split 0] 3).2.2 (by decide)).1⟩

/-! ### A decidable genome invariant, for concrete witnesses -/

/-- Executable acyclicity check: no node reaches itself (one extra unit of
fuel makes the fuelled search complete for self-reachability). -/
def AcyclicB (g : DAG) : Bool :=
  (List.range g.nodes.length).all fun x => ! g.isAncestorF (g.nodes.length + 1) x x

theorem acyclicB_iff (g : DAG) : AcyclicB g = true ↔ Acyclic g := by
  constructor
  · intro h x hx
    have hxn : x < g.nodes.length := by
      cases hx with
      | single e => exact e.lt_len
      | cons e _ => exact e.lt_len
    have := (List.all_eq_true.1 h) x (List.mem_range.2 hxn)
    rw [reach_self_isAncestorF hx] at this
    simp at this
  · intro h
    refine List.all_eq_true.2 fun x _ => ?_
    cases hb : g.isAncestorF (g.nodes.length + 1) x x with
    | false => rfl
    | true => exact absurd (isAncestorF_sound hb) (h x)

/-- The invariant of API-built genomes, phrased decidably: DAG structural
invariants, node-count agreement with the DAG, and every connection record
backed by a DAG edge. -/
def GenomeOK (g : Genome) : Prop :=
  (∀ u, u < g.dag.nodes.length →
    (∀ c ∈ (g.dag.getNode u).out, c < g.dag.nodes.length)
    ∧ (g.dag.getNode u).out.Nodup)
  ∧ (∀ v, v < g.dag.nodes.length →
      (g.dag.getNode v).incoming = (parentsF g.dag v).card)
  ∧ AcyclicB g.dag = true
  ∧ g.nodes.length = g.dag.nodes.length
  ∧ (∀ c ∈ g.connections, g.dag.isParent c.fromNode c.toNode = true)

instance GenomeOK.dec (g : Genome) : Decidable (GenomeOK g) := by
  unfold GenomeOK
  exact inferInstance

theorem GenomeOK.dagOK {g : Genome} (h : GenomeOK g) : DagOK g.dag :=
  ⟨fun u hu => (h.1 u hu).1, fun u hu => (h.1 u hu).2, h.2.1,
    (acyclicB_iff g.dag).1 h.2.2.1⟩

theorem reach_first_edge {g : DAG} {x y : Nat} (h : Reach g x y) :
    ∃ z, Edge g x z := by
  cases h with
  | single e => exact ⟨_, e⟩
  | cons e _ => exact ⟨_, e⟩

theorem reach_last_edge {g : DAG} {x y : Nat} (h : Reach g x y) :
    ∃ z, Edge g z y := by
  induction h with
  | single e => exact ⟨_, e⟩
  | cons _ _ ih => exact ih

/-- `countP` drops by one when the modified entry flips from satisfying the
predicate to not satisfying it. -/
theorem countP_modIdx_disable {α : Type} [Inhabited α] (p : α → Bool) (l : List α)
    (i : Nat) (f : α → α) (hi : i < l.length)
    (hp : p (l.getD i default) = true) (hq : p (f (l.getD i default)) = false) :
    (modIdx l i f).countP p + 1 = l.countP p := by
  induction l generalizing i with
  | nil => simp at hi
  | cons a l ih =>
    cases i with
    | zero =>
      simp only [List.getD_cons_zero] at hp hq
      simp [modIdx, List.countP_cons, hp, hq]
    | succ j =>
      simp only [List.getD_cons_succ] at hp hq
      simp only [modIdx, List.countP_cons]
      have := ih j (by simpa using hi) hp hq
      omega

theorem isParent_false_of_not_mem {g : DAG} {f t : Nat}
    (h : t ∉ (g.getNode f).out) : g.isParent f t = false := by
  have hc : (g.getNode f).out.contains t = false := by simpa using h
  unfold DAG.isParent
  rw [hc, Bool.and_false]

theorem isAncestor_false_of_not_reach {g : DAG} {a d : Nat}
    (h : ¬ Reach g a d) : g.isAncestor a d = false := by
  cases hb : g.isAncestor a d with
  | false => rfl
  | true => exact absurd (isAncestorF_sound hb) h

theorem Genome.createConnection_of_dag {G : Genome} {f t : Nat} {w : Rat} {d' : DAG}
    (hd : G.dag.createConnection f t = (true, d')) :
    G.createConnection f t w = (true, { G with
      dag := d',
      connections := G.connections ++ [{ fromNode := f, toNode := t, weight := w }] }) := by
  simp only [Genome.createConnection, hd]
  simp

theorem Genome.createConnection_of_dag_fail {G : Genome} {f t : Nat} {w : Rat}
    (hd : (G.dag.createConnection f t).1 = false) :
    G.createConnection f t w = (false, G) := by
  simp only [Genome.createConnection, hd]
  simp

/-- C5: `splitConnection` on an enabled connection `c = (from, to, weight)`
disables `c`, appends one new ReLU hidden node, appends the connections
`(from, newNode, weight)` and `(newNode, to, 1.0)` (both accepted by the
DAG), and leaves `N + 1` nodes and `M + 1` enabled connections. -/
theorem c5_splitConnection (g : Genome) (i : Nat) (hOK : GenomeOK g)
    (hi : i < g.connections.length)
    (hen : (g.connections.getD i default).enabled = true) :
    (g.splitConnection i).1 = true
    ∧ (g.splitConnection i).2.nodes.length = g.nodes.length + 1
    ∧ (g.splitConnection i).2.connections.countP (fun c => c.enabled)
        = g.connections.countP (fun c => c.enabled) + 1
    ∧ ((g.splitConnection i).2.nodes.getD g.nodes.length default).activation
        = ActivationType.relu
    ∧ ((g.splitConnection i).2.nodes.getD g.nodes.length default).type = NodeType.hidden
    ∧ (g.splitConnection i).2.connections
        = modIdx g.connections i (fun c => { c with enabled := false })
          ++ [{ fromNode := (g.connections.getD i default).fromNode,
                toNode := g.dag.nodes.length,
                weight := (g.connections.getD i default).weight },
              { fromNode := g.dag.nodes.length,
                toNode := (g.connections.getD i default).toNode,
                weight := 1 }] := by
  have dOK := hOK.dagOK
  have hconnmem : g.connections.getD i default ∈ g.connections := by
    rw [List.getD_eq_getElem _ _ hi]
    exact List.getElem_mem hi
  have hedge : Edge g.dag (g.connections.getD i default).fromNode
      (g.connections.getD i default).toNode := hOK.2.2.2.2 _ hconnmem
  set f₀ := (g.connections.getD i default).fromNode with hf₀def
  set t₀ := (g.connections.getD i default).toNode with ht₀def
  set n := g.dag.nodes.length with hndef
  have hf0 : f₀ < n := (edge_def.1 hedge).1
  have ht0mem : t₀ ∈ (g.dag.getNode f₀).out := (edge_def.1 hedge).2
  have ht0 : t₀ < n := (dOK.out_valid f₀ hf0) t₀ ht0mem
  have hf0t0 : f₀ ≠ t₀ := by
    rintro h
    exact dOK.acyclic f₀ (Reach.single (h ▸ hedge))
  -- the DAG after createNode
  set d1 : DAG := ⟨g.dag.nodes ++ [DAGNode.new]⟩ with hd1def
  have hd1create : g.dag.createNode = (n, d1) := rfl
  have hd1len : d1.nodes.length = n + 1 := by simp [hd1def]
  have hedge_d1 : ∀ a b, Edge d1 a b ↔ Edge g.dag a b := fun a b =>
    edge_createNode g.dag a b
  -- first insertion: from → newNode
  have hanc1 : d1.isAncestor n f₀ = false := by
    refine isAncestor_false_of_not_reach fun hr => ?_
    obtain ⟨z, hz⟩ := reach_first_edge hr
    have : n < n := ((hedge_d1 n z).1 hz).lt_len
    omega
  have hpar1 : d1.isParent f₀ n = false := by
    refine isParent_false_of_not_mem fun hmem => ?_
    have hout : (d1.getNode f₀).out = (g.dag.getNode f₀).out := by
      have := getNode_createNode (g := g.dag) f₀
      rw [show g.dag.createNode.2 = d1 from rfl] at this
      rw [this, if_pos hf0]
    rw [hout] at hmem
    have := (dOK.out_valid f₀ hf0) n hmem
    omega
  have hd1conn : d1.createConnection f₀ n = (true, ⟨connectNodes d1.nodes f₀ n⟩) :=
    createConnection_succ (by omega) (by omega) (by omega) hanc1 hpar1
  set d2 : DAG := ⟨connectNodes d1.nodes f₀ n⟩ with hd2def
  have hd2len : d2.nodes.length = n + 1 := by
    rw [hd2def]
    show (connectNodes d1.nodes f₀ n).length = n + 1
    rw [length_connectNodes d1]
    exact hd1len
  -- second insertion: newNode → to
  have hanc2 : d2.isAncestor t₀ n = false := by
    refine isAncestor_false_of_not_reach fun hr => ?_
    have hfn : f₀ ≠ n := by omega
    have hfd1 : f₀ < d1.nodes.length := by omega
    rcases reach_connect_decomp hfn hfd1 hr with h | ⟨hl, -⟩
    · obtain ⟨z, hz⟩ := reach_last_edge h
      have hz' : Edge g.dag z n := (hedge_d1 z n).1 hz
      have hzn : z < n := hz'.lt_len
      have := (dOK.out_valid z hzn) n (edge_def.1 hz').2
      omega
    · rcases hl with h | h
      · have : Reach g.dag t₀ f₀ := reach_congr (fun a b => (hedge_d1 a b)) h
        exact dOK.acyclic f₀ (Reach.cons hedge this)
      · exact hf0t0 h.symm
  have hpar2 : d2.isParent n t₀ = false := by
    refine isParent_false_of_not_mem fun hmem => ?_
    have hout2 : (d2.getNode n).out = (d1.getNode n).out := by
      rw [hd2def]
      have := connect_out (g := d1) (f := f₀) (t := n) (by omega) n
      rw [this, if_neg (fun hc => by omega)]
    have hout1 : (d1.getNode n).out = [] := by
      have := getNode_createNode (g := g.dag) n
      rw [show g.dag.createNode.2 = d1 from rfl] at this
      rw [this, if_neg (by omega), if_pos rfl]
      rfl
    rw [hout2, hout1] at hmem
    exact List.not_mem_nil t₀ hmem
  have hd2conn : d2.createConnection n t₀ = (true, ⟨connectNodes d2.nodes n t₀⟩) :=
    createConnection_succ (by omega) (by omega) (by omega) hanc2 hpar2
  -- now evaluate splitConnection
  have heq : g.splitConnection i = (true, { g with
      dag := ⟨connectNodes d2.nodes n t₀⟩,
      nodes := g.nodes ++ [{ id := n, type := NodeType.hidden, activation := ActivationType.relu }],
      info := { g.info with hidden := g.info.hidden + 1 },
      connections := (modIdx g.connections i (fun c => { c with enabled := false })
        ++ [{ fromNode := f₀, toNode := n, weight := (g.connections.getD i default).weight }])
        ++ [{ fromNode := n, toNode := t₀, weight := 1 }] }) := by
    simp only [Genome.splitConnection]
    rw [if_pos hi, if_neg (by rw [hen]; simp)]
    simp only [Genome.createNode, Genome.createConnection, hd1create, ← hf₀def, ← ht₀def,
      ← hd1def]
    simp only [hd1conn, hd2conn]
    simp [hd2conn]
  rw [heq]
  have hcount := countP_modIdx_disable (fun c : GenomeConnection => c.enabled)
    g.connections i (fun c => { c with enabled := false }) hi hen rfl
  refine ⟨rfl, by simp, ?_, ?_, ?_, ?_⟩
  · simp only [List.countP_append]
    have h2 : List.countP (fun c : GenomeConnection => c.enabled)
        [({ fromNode := f₀, toNode := n, weight := (g.connections.getD i default).weight }
          : GenomeConnection)] = 1 := rfl
    have h3 : List.countP (fun c : GenomeConnection => c.enabled)
        [({ fromNode := n, toNode := t₀, weight := 1 } : GenomeConnection)] = 1 := rfl
    rw [h2, h3]
    omega
  · show ((g.nodes ++ [_]).getD g.nodes.length default).activation = _
    rw [List.getD_eq_getElem?_getD, List.getElem?_append_right (le_refl _)]
    simp
  · show ((g.nodes ++ [_]).getD g.nodes.length default).type = _
    rw [List.getD_eq_getElem?_getD, List.getElem?_append_right (le_refl _)]
    simp
  · simp [List.append_assoc]

/-- Witness for C5: splitting the only connection of a 1-input/1-output
genome with the edge `0 → 1`. -/
theorem c5_witness :
    ((runGOps 1 1 [GOp.conn 0 1 (1/2)]).splitConnection 0).1 = true
    ∧ ((runGOps 1 1 [GOp.conn 0 1 (1/2)]).splitConnection 0).2.nodes.length
        = (runGOps 1 1 [GOp.conn 0 1 (1/2)]).nodes.length + 1
    ∧ ((runGOps 1 1 [GOp.conn 0 1 (1/2)]).splitConnection 0).2.connections.countP
        (fun c => c.enabled)
        = (runGOps 1 1 [GOp.conn 0 1 (1/2)]).connections.countP (fun c => c.enabled) + 1 := by
  have h := c5_splitConnection (runGOps 1 1 [GOp.conn 0 1 (1/2)]) 0
    (by decide) (by decide) (by decide)
  exact ⟨h.1, h.2.1, h.2.2.1⟩

theorem reach_mono {g g' : DAG} (he : ∀ x y, Edge g x y → Edge g' x y)
    {a d : Nat} (h : Reach g a d) : Reach g' a d := by
  induction h with
  | single e => exact Reach.single (he _ _ e)
  | cons e _ ih => exact Reach.cons (he _ _ e) ih

/-- A run of `createNode` calls with a non-hidden type appends fresh genome
nodes and fresh DAG nodes, leaving connections and info untouched. -/
theorem foldl_createNode_eq (act : ActivationType) (ty : NodeType)
    (hty : ty ≠ NodeType.hidden) (m : Nat) :
    ∀ g : Genome, (List.range m).foldl (fun g _ => (g.createNode act ty).2) g
      = { g with
          nodes := g.nodes ++ (List.range m).map (fun k =>
            { id := g.dag.nodes.length + k, type := ty, activation := act }),
          dag := ⟨g.dag.nodes ++ List.replicate m DAGNode.new⟩ } := by
  induction m with
  | zero =>
    intro g
    simp
  | succ m ih =>
    intro g
    rw [List.range_succ, List.foldl_append, ih g, List.foldl_cons, List.foldl_nil]
    show (Genome.createNode _ act ty).2 = _
    simp only [Genome.createNode, DAG.createNode]
    rw [if_neg hty]
    simp only [List.length_append, List.length_replicate]
    congr 1
    · simp [List.map_append, List.append_assoc]
    · rw [List.append_assoc]
      congr 1
      rw [← List.replicate_succ']

/-- The `Genome(inputs, outputs)` constructor, computed. -/
theorem new_eq (ins outs : Nat) :
    Genome.new ins outs = {
      nodes := ((List.range ins).map fun k =>
          { id := k, type := NodeType.input, activation := ActivationType.none })
        ++ ((List.range outs).map fun k =>
          { id := ins + k, type := NodeType.output, activation := ActivationType.tanh }),
      connections := [],
      dag := ⟨List.replicate (ins + outs) DAGNode.new⟩,
      info := ⟨ins, outs, 0⟩ } := by
  rw [show Genome.new ins outs = (List.range outs).foldl
      (fun g _ => (g.createNode ActivationType.tanh NodeType.output).2)
      ((List.range ins).foldl (fun g _ => (g.createNode ActivationType.none NodeType.input).2)
        ⟨[], [], DAG.empty, ⟨ins, outs, 0⟩⟩) from rfl]
  rw [foldl_createNode_eq ActivationType.none NodeType.input (by simp) ins,
    foldl_createNode_eq ActivationType.tanh NodeType.output (by simp) outs]
  congr 1
  · rw [List.nil_append]
    congr 1
    · apply List.map_congr_left
      intro k hk
      congr 1
      simp [DAG.empty]
    · apply List.map_congr_left
      intro k hk
      congr 1
      simp [DAG.empty]
  · show DAG.mk _ = DAG.mk _
    congr 1
    rw [List.replicate_add]
    simp [DAG.empty]

/-- The hidden-node-copy fold of `clone()` skips all non-hidden nodes. -/
theorem foldl_cloneHidden_skip (L : List GenomeNode)
    (hL : ∀ nd ∈ L, nd.type ≠ NodeType.hidden) (c : Genome) :
    L.foldl (fun c nd => if nd.type = NodeType.hidden
      then (c.createNode nd.activation NodeType.hidden).2 else c) c = c := by
  induction L generalizing c with
  | nil => rfl
  | cons nd L ih =>
    rw [List.foldl_cons, if_neg (hL nd (by simp))]
    exact ih (fun x hx => hL x (by simp [hx])) c

/-- The hidden-node-copy fold of `clone()` on an all-hidden node list appends
one fresh hidden node per element, copying its activation. -/
theorem foldl_cloneHidden_eq (L : List GenomeNode)
    (hL : ∀ nd ∈ L, nd.type = NodeType.hidden) :
    ∀ c : Genome, L.foldl (fun c nd => if nd.type = NodeType.hidden
      then (c.createNode nd.activation NodeType.hidden).2 else c) c
      = { c with
          nodes := c.nodes ++ (List.range L.length).map (fun k =>
            { id := c.dag.nodes.length + k, type := NodeType.hidden,
              activation := (L.getD k default).activation }),
          dag := ⟨c.dag.nodes ++ List.replicate L.length DAGNode.new⟩,
          info := { c.info with hidden := c.info.hidden + L.length } } := by
  induction L with
  | nil =>
    intro c
    simp
  | cons nd L ih =>
    intro c
    rw [List.foldl_cons, if_pos (hL nd (by simp))]
    rw [ih (fun x hx => hL x (by simp [hx]))]
    have hcn : (c.createNode nd.activation NodeType.hidden).2 = { c with
        nodes := c.nodes ++ [{ id := c.dag.nodes.length, type := NodeType.hidden, activation := nd.activation }],
        dag := ⟨c.dag.nodes ++ [DAGNode.new]⟩,
        info := { c.info with hidden := c.info.hidden + 1 } } := by
      simp [Genome.createNode, DAG.createNode]
    rw [hcn]
    congr 1
    · simp only [List.append_assoc, List.singleton_append, List.length_cons]
      congr 1
      rw [List.range_succ_eq_map, List.map_cons]
      simp only [List.getD_cons_zero, List.map_map]
      congr 1
      apply List.map_congr_left
      intro k hk
      simp only [Function.comp_apply, List.getD_cons_succ]
      congr 1
      simp only [List.length_append, List.length_cons, List.length_nil]
      omega
    · show DAG.mk _ = DAG.mk _
      congr 1
      simp only [List.append_assoc, List.singleton_append, List.length_cons]
      rw [List.replicate_succ]
    · simp only [List.length_cons]
      congr 1
      omega

/-- The connection-copy fold of `clone()`: with distinct connection pairs,
each backed by an edge of the (acyclic) original DAG and not yet present in
the clone's DAG, every enabled connection is accepted, so the resulting
connection list is exactly the enabled sublist. -/
theorem clone_fold_conns {G : DAG} (hGok : DagOK G) :
    ∀ (cs : List GenomeConnection) (c : Genome),
      c.dag.nodes.length = G.nodes.length →
      (∀ x y, Edge c.dag x y → Edge G x y) →
      (∀ conn ∈ cs, Edge G conn.fromNode conn.toNode) →
      (∀ conn ∈ cs, conn.enabled = true → ¬ Edge c.dag conn.fromNode conn.toNode) →
      List.Pairwise (fun a b => (a.fromNode, a.toNode) ≠ (b.fromNode, b.toNode)) cs →
      ∃ d' : DAG,
        cs.foldl (fun c conn => if conn.enabled
          then (c.createConnection conn.fromNode conn.toNode conn.weight).2 else c) c
        = { c with
            dag := d',
            connections := c.connections ++ cs.filter (fun conn => conn.enabled) } := by
  intro cs
  induction cs with
  | nil =>
    intro c _ _ _ _ _
    exact ⟨c.dag, by simp⟩
  | cons conn cs' ih =>
    intro c hlen hsub hedges hnew hdis
    rw [List.foldl_cons]
    by_cases hcen : conn.enabled = true
    · rw [if_pos hcen]
      -- the insertion into the clone's DAG succeeds
      have hconnG : Edge G conn.fromNode conn.toNode := hedges conn (by simp)
      have hf : conn.fromNode < G.nodes.length := hconnG.lt_len
      have ht : conn.toNode < G.nodes.length :=
        hGok.out_valid _ hf _ (edge_def.1 hconnG).2
      have hft : conn.fromNode ≠ conn.toNode := by
        rintro h
        exact hGok.acyclic conn.fromNode (Reach.single (h ▸ hconnG))
      have hanc : c.dag.isAncestor conn.toNode conn.fromNode = false := by
        refine isAncestor_false_of_not_reach fun hr => ?_
        exact hGok.acyclic conn.fromNode (Reach.cons hconnG (reach_mono hsub hr))
      have hpar : c.dag.isParent conn.fromNode conn.toNode = false := by
        cases hb : c.dag.isParent conn.fromNode conn.toNode with
        | false => rfl
        | true => exact absurd hb (hnew conn (by simp) hcen)
      have hdagconn : c.dag.createConnection conn.fromNode conn.toNode =
          (true, ⟨connectNodes c.dag.nodes conn.fromNode conn.toNode⟩) :=
        createConnection_succ (by omega) (by omega) hft hanc hpar
      rw [Genome.createConnection_of_dag hdagconn]
      simp only
      -- re-establish the fold hypotheses for the updated clone
      have hflt : conn.fromNode < c.dag.nodes.length := by omega
      have hedge_new : ∀ x y, Edge ⟨connectNodes c.dag.nodes conn.fromNode conn.toNode⟩ x y
          ↔ Edge c.dag x y ∨ (x = conn.fromNode ∧ y = conn.toNode) :=
        edge_connect hft hflt
      obtain ⟨d', hd'⟩ := ih { c with
          dag := ⟨connectNodes c.dag.nodes conn.fromNode conn.toNode⟩,
          connections := c.connections
            ++ [{ fromNode := conn.fromNode, toNode := conn.toNode, weight := conn.weight }] }
        (by simpa [length_connectNodes] using hlen)
        (by
          intro x y hxy
          rcases (hedge_new x y).1 hxy with h | ⟨rfl, rfl⟩
          · exact hsub x y h
          · exact hconnG)
        (fun conn' h => hedges conn' (by simp [h]))
        (by
          intro conn' h hen' hc
          rcases (hedge_new conn'.fromNode conn'.toNode).1 hc with h' | ⟨h1, h2⟩
          · exact hnew conn' (by simp [h]) hen' h'
          · exact (List.pairwise_cons.1 hdis).1 conn' h (by rw [h1, h2]))
        (List.pairwise_cons.1 hdis).2
      refine ⟨d', ?_⟩
      rw [hd']
      have hconn_eq : ({ fromNode := conn.fromNode, toNode := conn.toNode, weight := conn.weight } : GenomeConnection) = conn := by
        cases conn with
        | mk f t w e =>
          simp only at hcen ⊢
          rw [hcen]
      simp only [List.filter_cons, hcen, if_pos]
      rw [hconn_eq, List.append_assoc]
      rfl
    · rw [if_neg hcen]
      obtain ⟨d', hd'⟩ := ih c hlen hsub
        (fun conn' h => hedges conn' (by simp [h]))
        (fun conn' h hen' => hnew conn' (by simp [h]) hen')
        (List.pairwise_cons.1 hdis).2
      refine ⟨d', ?_⟩
      rw [hd']
      have : List.filter (fun conn => conn.enabled) (conn :: cs')
          = List.filter (fun conn => conn.enabled) cs' := by
        rw [List.filter_cons]
        simp [hcen]
      rw [this]

/-- Block-shape invariant of API-built genomes: node count agrees with the
info record; the input block carries Identity activation, the output block
Tanh, and everything after the two blocks is hidden. -/
def GenomeBlocks (g : Genome) : Prop :=
  g.nodes.length = g.info.inputs + g.info.outputs + g.info.hidden
  ∧ (∀ i, i < g.info.inputs →
      (g.nodes.getD i default).type = NodeType.input
      ∧ (g.nodes.getD i default).activation = ActivationType.none)
  ∧ (∀ i, i < g.info.inputs + g.info.outputs → g.info.inputs ≤ i →
      (g.nodes.getD i default).type = NodeType.output
      ∧ (g.nodes.getD i default).activation = ActivationType.tanh)
  ∧ (∀ i, i < g.nodes.length → g.info.inputs + g.info.outputs ≤ i →
      (g.nodes.getD i default).type = NodeType.hidden)

instance GenomeBlocks.dec (g : Genome) : Decidable (GenomeBlocks g) := by
  unfold GenomeBlocks
  exact inferInstance

theorem getD_all_new {l : List DAGNode} (hall : ∀ x ∈ l, x = DAGNode.new) (i : Nat) :
    l.getD i default = DAGNode.new := by
  rcases Nat.lt_or_ge i l.length with h | h
  · rw [List.getD_eq_getElem _ _ h]
    exact hall _ (List.getElem_mem h)
  · rw [List.getD_eq_getElem?_getD, List.getElem?_eq_none h]
    rfl

/-- C10: `clone()` preserves the node count, the info record, and every
node's type, activation and bias, while its connection list is exactly the
enabled sublist of the original's (so any genome with a disabled connection
clones to strictly fewer connection records). -/
theorem c10_clone_spec (g : Genome) (hOK : GenomeOK g) (hB : GenomeBlocks g)
    (hdis : List.Pairwise
      (fun a b => (a.fromNode, a.toNode) ≠ (b.fromNode, b.toNode)) g.connections) :
    (g.clone).nodes.length = g.nodes.length
    ∧ (g.clone).info = g.info
    ∧ (∀ i, i < g.nodes.length →
        ((g.clone).nodes.getD i default).activation = (g.nodes.getD i default).activation
        ∧ ((g.clone).nodes.getD i default).bias = (g.nodes.getD i default).bias
        ∧ ((g.clone).nodes.getD i default).type = (g.nodes.getD i default).type)
    ∧ (g.clone).connections = g.connections.filter (fun c => c.enabled)
    ∧ ((∃ c ∈ g.connections, c.enabled = false) →
        (g.clone).connections.length < g.connections.length) := by
  obtain ⟨hlen_bi, hbin, hbout, hbhid⟩ := hB
  have hio_le : g.info.inputs + g.info.outputs ≤ g.nodes.length := by omega
  -- the two halves of the node list
  have hskip : ∀ nd ∈ g.nodes.take (g.info.inputs + g.info.outputs),
      nd.type ≠ NodeType.hidden := by
    intro nd hnd
    obtain ⟨j, hj, hje⟩ := List.mem_iff_getElem.1 hnd
    rw [List.length_take] at hj
    have hjlt : j < g.info.inputs + g.info.outputs := lt_of_lt_of_le hj (min_le_left _ _)
    have hjlen : j < g.nodes.length := by omega
    rw [List.getElem_take] at hje
    have hje' : g.nodes.getD j default = nd := by
      rw [List.getD_eq_getElem _ _ hjlen]
      exact hje
    rcases Nat.lt_or_ge j g.info.inputs with hcase | hcase
    · have := (hbin j hcase).1
      rw [hje'] at this
      rw [this]
      simp
    · have := (hbout j hjlt hcase).1
      rw [hje'] at this
      rw [this]
      simp
  have hhid : ∀ nd ∈ g.nodes.drop (g.info.inputs + g.info.outputs),
      nd.type = NodeType.hidden := by
    intro nd hnd
    obtain ⟨j, hj, hje⟩ := List.mem_iff_getElem.1 hnd
    rw [List.length_drop] at hj
    rw [List.getElem_drop] at hje
    have hjlen : g.info.inputs + g.info.outputs + j < g.nodes.length := by omega
    have hje' : g.nodes.getD (g.info.inputs + g.info.outputs + j) default = nd := by
      rw [List.getD_eq_getElem _ _ hjlen]
      exact hje
    have := hbhid (g.info.inputs + g.info.outputs + j) hjlen (by omega)
    rw [hje'] at this
    exact this
  -- evaluate the node-copy fold
  have hc1 : g.nodes.foldl (fun c nd => if nd.type = NodeType.hidden
        then (c.createNode nd.activation NodeType.hidden).2 else c)
        (Genome.new g.info.inputs g.info.outputs)
      = { Genome.new g.info.inputs g.info.outputs with
          nodes := (Genome.new g.info.inputs g.info.outputs).nodes
            ++ (List.range (g.nodes.drop (g.info.inputs + g.info.outputs)).length).map (fun k =>
              { id := (Genome.new g.info.inputs g.info.outputs).dag.nodes.length + k,
                type := NodeType.hidden,
                activation := ((g.nodes.drop (g.info.inputs + g.info.outputs)).getD k
                  default).activation }),
          dag := ⟨(Genome.new g.info.inputs g.info.outputs).dag.nodes
            ++ List.replicate (g.nodes.drop (g.info.inputs + g.info.outputs)).length
                DAGNode.new⟩,
          info := { (Genome.new g.info.inputs g.info.outputs).info with
            hidden := (Genome.new g.info.inputs g.info.outputs).info.hidden
              + (g.nodes.drop (g.info.inputs + g.info.outputs)).length } } := by
    conv =>
      lhs
      rw [show g.nodes = g.nodes.take (g.info.inputs + g.info.outputs)
        ++ g.nodes.drop (g.info.inputs + g.info.outputs) from
        (List.take_append_drop _ _).symm]
    rw [List.foldl_append, foldl_cloneHidden_skip _ hskip,
      foldl_cloneHidden_eq _ hhid]
  have hdlen : (g.nodes.drop (g.info.inputs + g.info.outputs)).length = g.info.hidden := by
    rw [List.length_drop]
    omega
  have hnodesC1 : (g.nodes.foldl (fun c nd => if nd.type = NodeType.hidden
        then (c.createNode nd.activation NodeType.hidden).2 else c)
        (Genome.new g.info.inputs g.info.outputs)).nodes
      = (((List.range g.info.inputs).map fun k =>
          { id := k, type := NodeType.input, activation := ActivationType.none })
        ++ ((List.range g.info.outputs).map fun k =>
          { id := g.info.inputs + k, type := NodeType.output,
            activation := ActivationType.tanh }))
        ++ (List.range (g.nodes.drop (g.info.inputs + g.info.outputs)).length).map (fun k =>
          { id := g.info.inputs + g.info.outputs + k, type := NodeType.hidden,
            activation := ((g.nodes.drop (g.info.inputs + g.info.outputs)).getD k
              default).activation }) := by
    rw [hc1, new_eq]
    simp
  have hdagC1 : (g.nodes.foldl (fun c nd => if nd.type = NodeType.hidden
        then (c.createNode nd.activation NodeType.hidden).2 else c)
        (Genome.new g.info.inputs g.info.outputs)).dag.nodes
      = List.replicate (g.info.inputs + g.info.outputs) DAGNode.new
        ++ List.replicate (g.nodes.drop (g.info.inputs + g.info.outputs)).length
            DAGNode.new := by
    rw [hc1, new_eq]
  have hconnC1 : (g.nodes.foldl (fun c nd => if nd.type = NodeType.hidden
        then (c.createNode nd.activation NodeType.hidden).2 else c)
        (Genome.new g.info.inputs g.info.outputs)).connections = [] := by
    rw [hc1, new_eq]
  have hinfoC1 : (g.nodes.foldl (fun c nd => if nd.type = NodeType.hidden
        then (c.createNode nd.activation NodeType.hidden).2 else c)
        (Genome.new g.info.inputs g.info.outputs)).info
      = ⟨g.info.inputs, g.info.outputs,
          0 + (g.nodes.drop (g.info.inputs + g.info.outputs)).length⟩ := by
    rw [hc1, new_eq]
  have hflen : (g.nodes.foldl (fun c nd => if nd.type = NodeType.hidden
        then (c.createNode nd.activation NodeType.hidden).2 else c)
        (Genome.new g.info.inputs g.info.outputs)).dag.nodes.length
      = g.dag.nodes.length := by
    rw [hdagC1, List.length_append, List.length_replicate, List.length_replicate,
      hdlen, ← hOK.2.2.2.1]
    omega
  have hnoe : ∀ x y, ¬ Edge (g.nodes.foldl (fun c nd => if nd.type = NodeType.hidden
        then (c.createNode nd.activation NodeType.hidden).2 else c)
        (Genome.new g.info.inputs g.info.outputs)).dag x y := by
    intro x y he
    rw [edge_def] at he
    have hgn : (g.nodes.foldl (fun c nd => if nd.type = NodeType.hidden
          then (c.createNode nd.activation NodeType.hidden).2 else c)
          (Genome.new g.info.inputs g.info.outputs)).dag.getNode x = DAGNode.new := by
      show List.getD _ _ _ = _
      rw [hdagC1]
      refine getD_all_new ?_ x
      intro z hz
      rcases List.mem_append.1 hz with h | h
      · exact List.eq_of_mem_replicate h
      · exact List.eq_of_mem_replicate h
    rw [hgn] at he
    simp [DAGNode.new] at he
  obtain ⟨d', hc2⟩ := clone_fold_conns hOK.dagOK g.connections
    (g.nodes.foldl (fun c nd => if nd.type = NodeType.hidden
      then (c.createNode nd.activation NodeType.hidden).2 else c)
      (Genome.new g.info.inputs g.info.outputs))
    hflen
    (fun x y he => absurd he (hnoe x y))
    (fun conn hconn => hOK.2.2.2.2 conn hconn)
    (fun conn _ _ => hnoe conn.fromNode conn.toNode)
    hdis
  have hclone : g.clone = {
      nodes := (List.range ((g.nodes.foldl
        (fun c nd => if nd.type = NodeType.hidden
          then (c.createNode nd.activation NodeType.hidden).2 else c)
        (Genome.new g.info.inputs g.info.outputs)).nodes.length)).map (fun i =>
          if i < g.nodes.length then
            { (g.nodes.foldl (fun c nd => if nd.type = NodeType.hidden
                then (c.createNode nd.activation NodeType.hidden).2 else c)
                (Genome.new g.info.inputs g.info.outputs)).nodes.getD i default with
              bias := (g.nodes.getD i default).bias }
          else (g.nodes.foldl (fun c nd => if nd.type = NodeType.hidden
              then (c.createNode nd.activation NodeType.hidden).2 else c)
              (Genome.new g.info.inputs g.info.outputs)).nodes.getD i default),
      connections := g.connections.filter (fun conn => conn.enabled),
      dag := d',
      info := (g.nodes.foldl (fun c nd => if nd.type = NodeType.hidden
        then (c.createNode nd.activation NodeType.hidden).2 else c)
        (Genome.new g.info.inputs g.info.outputs)).info } := by
    simp only [Genome.clone]
    rw [hc2]
    rw [hconnC1, List.nil_append]
  have hflen2 : (g.nodes.foldl (fun c nd => if nd.type = NodeType.hidden
        then (c.createNode nd.activation NodeType.hidden).2 else c)
        (Genome.new g.info.inputs g.info.outputs)).nodes.length = g.nodes.length := by
    rw [hnodesC1]
    simp only [List.length_append, List.length_map, List.length_range]
    omega
  refine ⟨?_, ?_, ?_, ?_, ?_⟩
  · rw [hclone]
    show ((List.range _).map _).length = _
    rw [List.length_map, List.length_range, hflen2]
  · rw [hclone]
    show (g.nodes.foldl (fun c nd => if nd.type = NodeType.hidden
        then (c.createNode nd.activation NodeType.hidden).2 else c)
        (Genome.new g.info.inputs g.info.outputs)).info = g.info
    rw [hinfoC1, Nat.zero_add, hdlen]
  · intro i hi
    have hgi : ((g.nodes.foldl (fun c nd => if nd.type = NodeType.hidden
          then (c.createNode nd.activation NodeType.hidden).2 else c)
          (Genome.new g.info.inputs g.info.outputs)).nodes.getD i default).activation
          = (g.nodes.getD i default).activation
        ∧ ((g.nodes.foldl (fun c nd => if nd.type = NodeType.hidden
          then (c.createNode nd.activation NodeType.hidden).2 else c)
          (Genome.new g.info.inputs g.info.outputs)).nodes.getD i default).type
          = (g.nodes.getD i default).type := by
      rw [hnodesC1]
      rcases Nat.lt_or_ge i g.info.inputs with hci | hci
      · rw [List.getD_append _ _ _ _ (by simp; omega),
          List.getD_append _ _ _ _ (by simp; omega),
          List.getD_eq_getElem _ _ (by simp; omega),
          List.getElem_map, List.getElem_range]
        exact ⟨(hbin i hci).2.symm, (hbin i hci).1.symm⟩
      rcases Nat.lt_or_ge i (g.info.inputs + g.info.outputs) with hco | hco
      · rw [List.getD_append _ _ _ _ (by simp; omega),
          List.getD_append_right _ _ _ _ (by simp; omega),
          List.getD_eq_getElem _ _ (by simp; omega),
          List.getElem_map, List.getElem_range]
        exact ⟨(hbout i hco hci).2.symm, (hbout i hco hci).1.symm⟩
      · rw [List.getD_append_right _ _ _ _ (by simp; omega)]
        simp only [List.length_append, List.length_map, List.length_range]
        rw [List.getD_eq_getElem _ _ (by simp [List.length_drop]; omega),
          List.getElem_map, List.getElem_range]
        have hk : (g.nodes.drop (g.info.inputs + g.info.outputs)).getD
            (i - (g.info.inputs + g.info.outputs)) default = g.nodes.getD i default := by
          rw [List.getD_eq_getElem _ _ (by rw [List.length_drop]; omega),
            List.getD_eq_getElem _ _ (show i < g.nodes.length from hi),
            List.getElem_drop]
          congr 1
          omega
        constructor
        · show ((g.nodes.drop (g.info.inputs + g.info.outputs)).getD
            (i - (g.info.inputs + g.info.outputs)) default).activation = _
          rw [hk]
        · show NodeType.hidden = (g.nodes.getD i default).type
          exact (hbhid i hi hco).symm
    rw [hclone]
    dsimp only
    rw [List.getD_eq_getElem _ _ (by rw [List.length_map, List.length_range, hflen2]; exact hi),
      List.getElem_map, List.getElem_range, if_pos hi]
    exact ⟨hgi.1, rfl, hgi.2⟩
  · rw [hclone]
  · intro hex
    obtain ⟨c, hcmem, hcdis⟩ := hex
    rw [hclone]
    show (g.connections.filter (fun conn => conn.enabled)).length < g.connections.length
    refine lt_of_le_of_ne (List.length_filter_le _ _) fun heq => ?_
    have := List.filter_length_eq_length.mp heq c hcmem
    rw [hcdis] at this
    exact Bool.false_ne_true this

/-- Witness for C10: a concrete genome with one split (hence one disabled)
connection clones to strictly fewer connection records. -/
theorem c10_witness :
    GenomeOK (runGOps 1 1 [GOp.conn 0 1 (1/2), GOp.split 0])
    ∧ (runGOps 1 1 [GOp.conn 0 1 (1/2), GOp.split 0]).clone.connections.length
      < (runGOps 1 1 [GOp.conn 0 1 (1/2), GOp.split 0]).connections.length :=
  ⟨by decide,
    (c10_clone_spec (runGOps 1 1 [GOp.conn 0 1 (1/2), GOp.split 0])
      (by decide) (by decide) (by decide)).2.2.2.2 (by decide)⟩

/-! ## The Network execution engine (translated from `src/network.ts`)

Machine reals are modelled by `Rat`; a node's activation pointer is
modelled by its `ActivationType` tag together with an arbitrary
interpretation `interp : ActivationType → Rat → Rat` supplied to
`execute`. -/

def NetworkInfo.getNodeCount (info : NetworkInfo) : Nat :=
  info.inputs + info.hidden + info.outputs

structure NetworkNode where
  activation : ActivationType := ActivationType.none
  sum : Rat := 0
  bias : Rat := 0
  connectionCount : Nat := 0
  depth : Nat := 0
  deriving Repr, DecidableEq, Inhabited

structure NetworkConnection where
  toIdx : Nat := 0
  weight : Rat := 0
  value : Rat := 0
  deriving Repr, DecidableEq, Inhabited

/-- The tagged-union slot: a node or a connection. -/
inductive NetworkSlot
  | node (nd : NetworkNode)
  | conn (c : NetworkConnection)
  deriving Repr, DecidableEq, Inhabited

structure Network where
  slots : List NetworkSlot := []
  output : List Rat := []
  info : NetworkInfo := ⟨0, 0, 0⟩
  maxDepth : Nat := 0
  connectionCount : Nat := 0
  deriving Repr, DecidableEq, Inhabited

namespace Network

/-- `initialize(info, connectionCount)`: node slots first, then connection
slots, and a zero-filled output vector. -/
def initNet (n : Network) (info : NetworkInfo) (connectionCount : Nat) : Network :=
  { n with
    info := info,
    connectionCount := connectionCount,
    slots := (List.range info.getNodeCount).map (fun _ => NetworkSlot.node {})
      ++ (List.range connectionCount).map (fun _ => NetworkSlot.conn {}),
    output := List.replicate info.outputs 0 }

/-- `getNode(i)`, reading a defaulted node where the source would throw. -/
def getNodeD (n : Network) (i : Nat) : NetworkNode :=
  match n.slots.getD i (NetworkSlot.node {}) with
  | NetworkSlot.node nd => nd
  | NetworkSlot.conn _ => default

/-- `getConnection(i)`: connections live after the node block. -/
def getConnD (n : Network) (i : Nat) : NetworkConnection :=
  match n.slots.getD (n.info.getNodeCount + i) (NetworkSlot.conn {}) with
  | NetworkSlot.conn c => c
  | NetworkSlot.node _ => default

/-- In-place update of node slot `i`. -/
def modNode (n : Network) (i : Nat) (f : NetworkNode → NetworkNode) : Network :=
  { n with slots := modIdx n.slots i (fun s => match s with
      | NetworkSlot.node nd => NetworkSlot.node (f nd)
      | s => s) }

/-- In-place update of connection slot `i`. -/
def modConn (n : Network) (i : Nat) (f : NetworkConnection → NetworkConnection) : Network :=
  { n with slots := modIdx n.slots (n.info.getNodeCount + i) (fun s => match s with
      | NetworkSlot.conn c => NetworkSlot.conn (f c)
      | s => s) }

/-- `setNode(i, activation, bias, connectionCount)`. -/
def setNode (n : Network) (i : Nat) (act : ActivationType) (bias : Rat)
    (connectionCount : Nat) : Network :=
  n.modNode i fun nd =>
    { nd with activation := act, bias := bias, connectionCount := connectionCount }

/-- `setNodeDepth(i, depth)`. -/
def setNodeDepth (n : Network) (i : Nat) (depth : Nat) : Network :=
  n.modNode i fun nd => { nd with depth := depth }

/-- `setConnection(i, to, weight)`. -/
def setConnection (n : Network) (i : Nat) (toIdx : Nat) (weight : Rat) : Network :=
  n.modConn i fun c => { c with toIdx := toIdx, weight := weight }

/-- `getResult()`: the stored output vector. -/
def getResult (n : Network) : List Rat := n.output

/-- `execute(input)`: length check first, then reset the accumulators, seed
the inputs, run the single linear pass over nodes with a running connection
cursor, and write the output vector. Returns the success flag paired with
the post-state of the mutated network. -/
def execute (interp : ActivationType → Rat → Rat) (net : Network)
    (input : List Rat) : Bool × Network :=
  if input.length ≠ net.info.inputs then (false, net)
  else
    let n1 := (List.range net.info.getNodeCount).foldl
      (fun n i => n.modNode i fun nd => { nd with sum := 0 }) net
    let n2 := (List.range net.info.inputs).foldl
      (fun n i => n.modNode i fun nd => { nd with sum := input.getD i 0 }) n1
    let pass := (List.range net.info.getNodeCount).foldl
      (fun (p : Network × Nat) i =>
        let node := p.1.getNodeD i
        let value := interp node.activation (node.sum + node.bias)
        let n' := (List.range node.connectionCount).foldl
          (fun n o =>
            let n' := n.modConn (p.2 + o) fun c => { c with value := value * c.weight }
            let c := n'.getConnD (p.2 + o)
            n'.modNode c.toIdx fun nd => { nd with sum := nd.sum + c.value }) p.1
        (n', p.2 + node.connectionCount)) (n2, 0)
    let n3 := pass.1
    let n4 := { n3 with output := (List.range net.info.outputs).map (fun i =>
      let nd := n3.getNodeD (net.info.inputs + net.info.hidden + i)
      interp nd.activation (nd.sum + nd.bias)) }
    (true, n4)

end Network

/-- C6: `execute` on an input vector of the wrong length returns `false`
and mutates nothing — the length check precedes the accumulator reset, so
the whole network state (in particular the stored output returned by
`getResult`) is exactly what the last successful `execute` left. -/
theorem c6_execute_mismatch (interp : ActivationType → Rat → Rat)
    (net : Network) (input : List Rat)
    (h : input.length ≠ net.info.inputs) :
    Network.execute interp net input = (false, net)
    ∧ (Network.execute interp net input).2.getResult = net.getResult := by
  unfold Network.execute
  rw [if_pos h]
  exact ⟨rfl, rfl⟩

/-- Witness for C6: a freshly initialized 2-input network rejects a
1-element input vector unchanged. -/
theorem c6_witness :
    ([(5 : Rat)].length ≠ (Network.initNet {} ⟨2, 1, 0⟩ 0).info.inputs)
    ∧ Network.execute (fun _ x => x) (Network.initNet {} ⟨2, 1, 0⟩ 0) [(5 : Rat)]
      = (false, Network.initNet {} ⟨2, 1, 0⟩ 0) :=
  ⟨by decide, (c6_execute_mismatch (fun _ x => x) (Network.initNet {} ⟨2, 1, 0⟩ 0)
    [(5 : Rat)] (by decide)).1⟩

/-! ## The Mutator (translated from `src/mutator.ts` and `src/random.ts`)

The `IRandomGenerator` is modelled by an arbitrary stream of reals: each
draw consumes the head of a `List Rat` (`0` once exhausted), so theorems
quantified over the stream cover every RNG outcome. -/

def rnext (s : List Rat) : Rat × List Rat := (s.headD 0, s.tail)

/-- `randomInt(max)` = `Math.floor(random() * max)`. -/
def randomInt (s : List Rat) (max : Nat) : Nat × List Rat :=
  let p := rnext s
  ((Int.floor (p.1 * max)).toNat, p.2)

/-- `randomRange(min, max)` = `min + random() * (max - min)`. -/
def randomRange (s : List Rat) (min max : Rat) : Rat × List Rat :=
  let p := rnext s
  (min + p.1 * (max - min), p.2)

/-- `probability(prob)` = `random() < prob`. -/
def probability (s : List Rat) (prob : Rat) : Bool × List Rat :=
  let p := rnext s
  (decide (p.1 < prob), p.2)

structure MutationConfig where
  weightMutationRate : Rat := 0
  biasMutationRate : Rat := 0
  addNodeRate : Rat := 0
  addConnectionRate : Rat := 0
  weightRange : Rat := 0
  weightSmallRange : Rat := 0
  newValueProbability : Rat := 0
  maxHiddenNodes : Nat := 0
  mutationCount : Nat := 0
  deriving Repr, DecidableEq, Inhabited

namespace Mutator

/-- `mutateBiases(genome, config)`. -/
def mutateBiases (g : Genome) (cfg : MutationConfig) (s : List Rat) :
    Genome × List Rat :=
  if g.nodes.length = 0 then (g, s)
  else
    let p1 := randomInt s g.nodes.length
    let node := g.nodes.getD p1.1 default
    let pb := probability p1.2 cfg.newValueProbability
    if pb.1 then
      let pr := randomRange pb.2 (-cfg.weightRange) cfg.weightRange
      (g.updateNodeBias p1.1 pr.1, pr.2)
    else
      let pc := probability pb.2 (1/4)
      if pc.1 then
        let pr := randomRange pc.2 (-cfg.weightRange) cfg.weightRange
        (g.updateNodeBias p1.1 (node.bias + pr.1), pr.2)
      else
        let pr := randomRange pc.2 (-cfg.weightRange) cfg.weightRange
        (g.updateNodeBias p1.1 (node.bias + cfg.weightSmallRange * pr.1), pr.2)

/-- `mutateWeights(genome, config)`. -/
def mutateWeights (g : Genome) (cfg : MutationConfig) (s : List Rat) :
    Genome × List Rat :=
  if g.connections.length = 0 then (g, s)
  else
    let p1 := randomInt s g.connections.length
    let connection := g.connections.getD p1.1 default
    let pb := probability p1.2 cfg.newValueProbability
    if pb.1 then
      let pr := randomRange pb.2 (-cfg.weightRange) cfg.weightRange
      (g.updateConnectionWeight p1.1 pr.1, pr.2)
    else
      let pc := probability pb.2 (3/4)
      if pc.1 then
        let pr := randomRange pc.2 (-cfg.weightRange) cfg.weightRange
        (g.updateConnectionWeight p1.1
          (connection.weight + cfg.weightSmallRange * pr.1), pr.2)
      else
        let pr := randomRange pc.2 (-cfg.weightRange) cfg.weightRange
        (g.updateConnectionWeight p1.1 (connection.weight + pr.1), pr.2)

/-- `addNode(genome, config)`: `choice` over the enabled connections
(represented by their indices), then `splitConnection`. -/
def addNode (g : Genome) (s : List Rat) : Genome × List Rat :=
  if g.connections.length = 0 then (g, s)
  else
    let enabledConnections := (List.range g.connections.length).filter
      (fun i => (g.connections.getD i default).enabled)
    if enabledConnections.length = 0 then (g, s)
    else
      let pc := randomInt s enabledConnections.length
      ((g.splitConnection (enabledConnections.getD pc.1 0)).2, pc.2)

/-- The source pick of `addConnection`: draw from
`inputs + hidden`, remapping an output-range hit past the output block. -/
def pickSource (g : Genome) (s : List Rat) : Nat × List Rat :=
  let p := randomInt s (g.info.inputs + g.info.hidden)
  (if g.info.inputs ≤ p.1 ∧ p.1 < g.info.inputs + g.info.outputs
    then p.1 + g.info.outputs else p.1, p.2)

/-- The target pick of `addConnection`: draw from `hidden + outputs`,
offset past the input block. -/
def pickTarget (g : Genome) (s : List Rat) : Nat × List Rat :=
  let p := randomInt s (g.info.hidden + g.info.outputs)
  (p.1 + g.info.inputs, p.2)

/-- `addConnection(genome, config)`. -/
def addConnection (g : Genome) (cfg : MutationConfig) (s : List Rat) :
    Genome × List Rat :=
  let ps := pickSource g s
  let pt := pickTarget g ps.2
  let pw := randomRange pt.2 (-cfg.weightRange) cfg.weightRange
  ((g.createConnection ps.1 pt.1 pw.1).2, pw.2)

/-- `mutate(genome, config)`: clone first, then the weight/bias loop, then
the optional node and connection additions — every mutating call is made on
the clone. The first component of the result is the post-call state of the
genome object passed in (which no step of the source writes to), the second
the returned genome, the third the remaining stream. -/
def mutate (g : Genome) (cfg : MutationConfig) (s : List Rat) :
    Genome × Genome × List Rat :=
  let loop := (List.range cfg.mutationCount).foldl
    (fun (p : Genome × List Rat) _ =>
      let pq := probability p.2 (1/4)
      if pq.1 then
        let ph := probability pq.2 (1/2)
        if ph.1 then mutateBiases p.1 cfg ph.2
        else mutateWeights p.1 cfg ph.2
      else (p.1, pq.2)) (g.clone, s)
  let pn := probability loop.2 cfg.addNodeRate
  let afterNode := if pn.1 ∧ cfg.maxHiddenNodes > loop.1.info.hidden
    then addNode loop.1 pn.2 else (loop.1, pn.2)
  let pc := probability afterNode.2 cfg.addConnectionRate
  let afterConn := if pc.1 then addConnection afterNode.1 cfg pc.2
    else (afterNode.1, pc.2)
  (g, afterConn.1, afterConn.2)

end Mutator

/-- C8: the add-connection proposal never has an output-range source (an
output-range draw is remapped past the output block) and never has an
input-range target (the target draw is offset by the input count); and when
the genome's validating `createConnection` path rejects the proposal the
genome comes back unchanged. -/
theorem c8_addConnection_ranges (g : Genome) (cfg : MutationConfig)
    (s t : List Rat) :
    g.isOutputNode (Mutator.pickSource g s).1 = false
    ∧ g.isInputNode (Mutator.pickTarget g t).1 = false
    ∧ ((g.dag.createConnection (Mutator.pickSource g s).1
          (Mutator.pickTarget g (Mutator.pickSource g s).2).1).1 = false →
        (Mutator.addConnection g cfg s).1 = g) := by
  refine ⟨?_, ?_, ?_⟩
  · unfold Mutator.pickSource Genome.isOutputNode
    dsimp only
    split_ifs with h
    · simp only [decide_eq_false_iff_not, Bool.and_eq_false_imp, decide_eq_true_eq]
      intro
      omega
    · simp only [decide_eq_false_iff_not, Bool.and_eq_false_imp, decide_eq_true_eq]
      intro
      omega
  · unfold Mutator.pickTarget Genome.isInputNode
    dsimp only
    simp only [decide_eq_false_iff_not, not_lt]
    omega
  · intro h
    unfold Mutator.addConnection
    dsimp only
    unfold Genome.createConnection
    rw [h]
    simp

/-- Evaluation of a zero draw: `randomInt` yields index `0`. -/
theorem randomInt_cons_zero (s : List Rat) (n : Nat) : randomInt (0 :: s) n = (0, s) := by
  simp [randomInt, rnext]

theorem randomInt_nil (n : Nat) : randomInt [] n = (0, []) := by
  simp [randomInt, rnext]

theorem randomRange_nil (a b : Rat) : randomRange [] a b = (a, []) := by
  simp [randomRange, rnext]

theorem probability_nil (p : Rat) : probability [] p = (decide ((0 : Rat) < p), []) := by
  simp [probability, rnext]

theorem pickSource_eval :
    Mutator.pickSource (runGOps 1 1 [GOp.conn 0 1 (1/2)]) [0] = (0, []) := by
  unfold Mutator.pickSource
  dsimp only
  rw [randomInt_cons_zero]
  decide

theorem pickTarget_eval :
    Mutator.pickTarget (runGOps 1 1 [GOp.conn 0 1 (1/2)]) [] = (1, []) := by
  unfold Mutator.pickTarget
  dsimp only
  rw [randomInt_nil]
  decide

/-- Witness for C8: on a genome already containing 0→1, the zero stream
proposes exactly 0→1 again, the validating path rejects it, and the genome
comes back unchanged. -/
theorem c8_witness :
    ((runGOps 1 1 [GOp.conn 0 1 (1/2)]).dag.createConnection
        (Mutator.pickSource (runGOps 1 1 [GOp.conn 0 1 (1/2)]) [0]).1
        (Mutator.pickTarget (runGOps 1 1 [GOp.conn 0 1 (1/2)])
          (Mutator.pickSource (runGOps 1 1 [GOp.conn 0 1 (1/2)]) [0]).2).1).1 = false
    ∧ (Mutator.addConnection (runGOps 1 1 [GOp.conn 0 1 (1/2)]) {} [0]).1
      = runGOps 1 1 [GOp.conn 0 1 (1/2)] :=
  ⟨by rw [pickSource_eval]; dsimp only; rw [pickTarget_eval]; decide,
    (c8_addConnection_ranges (runGOps 1 1 [GOp.conn 0 1 (1/2)]) {} [0] [0]).2.2
      (by rw [pickSource_eval]; dsimp only; rw [pickTarget_eval]; decide)⟩

/-- The interface-determining part of a genome's info record. -/
def infoIO (g : Genome) : Nat × Nat := (g.info.inputs, g.info.outputs)

theorem infoIO_foldl {β : Type} (f : Genome → β → Genome)
    (hf : ∀ g b, infoIO (f g b) = infoIO g) (l : List β) :
    ∀ g, infoIO (l.foldl f g) = infoIO g := by
  induction l with
  | nil => intro g; rfl
  | cons b l ih =>
    intro g
    rw [List.foldl_cons, ih (f g b), hf g b]

theorem infoIO_pair_foldl {β γ : Type} (f : Genome × γ → β → Genome × γ)
    (hf : ∀ p b, infoIO (f p b).1 = infoIO p.1) (l : List β) :
    ∀ p, infoIO ((l.foldl f p).1) = infoIO p.1 := by
  induction l with
  | nil => intro p; rfl
  | cons b l ih =>
    intro p
    rw [List.foldl_cons, ih (f p b), hf p b]

theorem infoIO_updateNodeBias (g : Genome) (i : Nat) (b : Rat) :
    infoIO (g.updateNodeBias i b) = infoIO g := by
  unfold Genome.updateNodeBias
  split_ifs <;> rfl

theorem infoIO_updateConnectionWeight (g : Genome) (i : Nat) (w : Rat) :
    infoIO (g.updateConnectionWeight i w) = infoIO g := by
  unfold Genome.updateConnectionWeight
  split_ifs <;> rfl

theorem infoIO_createConnection (g : Genome) (f t : Nat) (w : Rat) :
    infoIO (g.createConnection f t w).2 = infoIO g := by
  unfold infoIO
  rw [createConnection_info]

theorem infoIO_splitConnection (g : Genome) (i : Nat) :
    infoIO (g.splitConnection i).2 = infoIO g := by
  have h := applyGOp_info_io g (GOp.split i)
  unfold infoIO
  rw [show applyGOp g (GOp.split i) = (g.splitConnection i).2 from rfl] at h
  rw [h.1, h.2]

/-- `clone()` preserves the input and output counts of every genome,
well-formed or not. -/
theorem infoIO_clone (g : Genome) : infoIO g.clone = infoIO g := by
  have h1 := infoIO_foldl (fun c nd => if nd.type = NodeType.hidden
      then (c.createNode nd.activation NodeType.hidden).2 else c)
    (fun c nd => by
      dsimp only
      by_cases h : nd.type = NodeType.hidden
      · rw [if_pos h]
        unfold infoIO
        rw [(createNode_info_io c nd.activation NodeType.hidden).1,
          (createNode_info_io c nd.activation NodeType.hidden).2]
      · rw [if_neg h])
    g.nodes
  have h2 := infoIO_foldl (fun c conn => if conn.enabled
      then (c.createConnection conn.fromNode conn.toNode conn.weight).2 else c)
    (fun c conn => by
      dsimp only
      by_cases h : conn.enabled = true
      · rw [if_pos h, infoIO_createConnection]
      · rw [if_neg h])
    g.connections
  have hnew : infoIO (Genome.new g.info.inputs g.info.outputs) = infoIO g := by
    unfold infoIO
    rw [new_eq]
  simp only [Genome.clone]
  show infoIO (g.connections.foldl _ (g.nodes.foldl _
    (Genome.new g.info.inputs g.info.outputs))) = infoIO g
  rw [h2, h1, hnew]

theorem infoIO_mutateBiases (g : Genome) (cfg : MutationConfig) (s : List Rat) :
    infoIO (Mutator.mutateBiases g cfg s).1 = infoIO g := by
  unfold Mutator.mutateBiases
  dsimp only
  split_ifs <;> first | rfl | rw [infoIO_updateNodeBias]

theorem infoIO_mutateWeights (g : Genome) (cfg : MutationConfig) (s : List Rat) :
    infoIO (Mutator.mutateWeights g cfg s).1 = infoIO g := by
  unfold Mutator.mutateWeights
  dsimp only
  split_ifs <;> first | rfl | rw [infoIO_updateConnectionWeight]

theorem infoIO_addNode (g : Genome) (s : List Rat) :
    infoIO (Mutator.addNode g s).1 = infoIO g := by
  unfold Mutator.addNode
  dsimp only
  split_ifs <;> first | rfl | rw [infoIO_splitConnection]

theorem infoIO_addConnection (g : Genome) (cfg : MutationConfig) (s : List Rat) :
    infoIO (Mutator.addConnection g cfg s).1 = infoIO g := by
  unfold Mutator.addConnection
  dsimp only
  rw [infoIO_createConnection]

theorem infoIO_mutate (g : Genome) (cfg : MutationConfig) (s : List Rat) :
    infoIO (Mutator.mutate g cfg s).2.1 = infoIO g := by
  have hstep : ∀ (p : Genome × List Rat) (b : Nat),
      infoIO ((fun (p : Genome × List Rat) (_ : Nat) =>
        let pq := probability p.2 (1/4)
        if pq.1 then
          let ph := probability pq.2 (1/2)
          if ph.1 then Mutator.mutateBiases p.1 cfg ph.2
          else Mutator.mutateWeights p.1 cfg ph.2
        else (p.1, pq.2)) p b).1 = infoIO p.1 := by
    intro p b
    dsimp only
    split_ifs
    · rw [infoIO_mutateBiases]
    · rw [infoIO_mutateWeights]
    · rfl
  simp only [Mutator.mutate]
  split_ifs
  all_goals first
    | (rw [infoIO_addConnection, infoIO_addNode, infoIO_pair_foldl _ hstep]
       exact infoIO_clone g)
    | (rw [infoIO_addConnection, infoIO_pair_foldl _ hstep]
       exact infoIO_clone g)
    | (rw [infoIO_addNode, infoIO_pair_foldl _ hstep]
       exact infoIO_clone g)
    | (rw [infoIO_pair_foldl _ hstep]
       exact infoIO_clone g)

/-- C9 counterexample: with mutation count 0, add-node rate 0 and
add-connection rate 1, the zero RNG stream makes `mutate` add one
connection — but the genome object passed in still has none afterwards,
only the returned clone does, refuting the claimed in-place mutation. -/
theorem c9_counterexample :
    (Mutator.mutate (runGOps 1 1 [])
        { addConnectionRate := 1, weightRange := 1 } []).1.connections.length = 0
    ∧ (Mutator.mutate (runGOps 1 1 [])
        { addConnectionRate := 1, weightRange := 1 } []).2.1.connections.length = 1 := by
  constructor
  · decide
  · have hcl : (runGOps 1 1 []).clone = runGOps 1 1 [] := by decide
    have hip : Mutator.pickSource (runGOps 1 1 []) [] = (0, []) := by
      unfold Mutator.pickSource
      dsimp only
      rw [randomInt_nil]
      decide
    have hit : Mutator.pickTarget (runGOps 1 1 []) [] = (1, []) := by
      unfold Mutator.pickTarget
      dsimp only
      rw [randomInt_nil]
      decide
    have hhid : (runGOps 1 1 []).info.hidden = 0 := by decide
    simp only [Mutator.mutate, List.range_zero, List.foldl_nil, hcl, hhid,
      Mutator.addConnection, probability_nil, randomRange_nil, decide_eq_true_eq,
      lt_self_iff_false, false_and, and_false, gt_iff_lt, if_false, zero_lt_one,
      if_true, hip, hit]
    decide

/-- C9 (amended): `Mutator.mutate` does not mutate its argument in place —
it clones the genome first and applies every weight, bias and structural
mutation to the clone it returns; the passed-in genome is untouched, and
the returned genome keeps the original input/output interface. -/
theorem c9_mutate_clones (g : Genome) (cfg : MutationConfig) (s : List Rat) :
    (Mutator.mutate g cfg s).1 = g
    ∧ (Mutator.mutate g cfg s).2.1.info.inputs = g.info.inputs
    ∧ (Mutator.mutate g cfg s).2.1.info.outputs = g.info.outputs := by
  refine ⟨rfl, ?_, ?_⟩
  · exact congrArg Prod.fst (infoIO_mutate g cfg s)
  · exact congrArg Prod.snd (infoIO_mutate g cfg s)

/-! ## The NetworkGenerator (translated from `src/unnamed/part_004`)

Modelled from the spec: the genome consumed by `NetworkGenerator.generate`
(`genome.graph` with per-node out-connection lists, `genome.nodes[i]` with
`depth`, `activation`, `bias`, `genome.connections[i]` with `from`, `to`,
`weight`, and `genome.computeDepth()` forcing the output block to
`max(maxDepth, 1)`) is the spec's Genome class, which is not part of the
sources; it is represented by the `Genome` translated from
`src/genome.ts`, whose `dag` field plays the role of `graph`. `generate`
and `getOrder` themselves are translated from `src/unnamed/part_004`; the
thrown `Invalid connection order` error is modelled by `Except.error` with
a fixed message. -/

namespace NetworkGenerator

/-- `getOrder(genome)`: run `computeDepth()` on the genome, keep the input
prefix of `0..n-1` in place and stable-sort the rest by node depth.
Returns the mutated genome together with the order. -/
def getOrder (genome : Genome) : Genome × List Nat :=
  let g := genome.computeDepth
  let order := List.range g.nodes.length
  let inputsPart := order.take g.info.inputs
  let restPart := order.drop g.info.inputs
  (g, inputsPart ++ List.insertionSort (fun a b =>
    (g.nodes.getD a default).depth ≤ (g.nodes.getD b default).depth) restPart)

/-- The `idxToOrder` array: `idxToOrder[order[i]] = i`. -/
def idxToOrder (genome : Genome) : List Nat :=
  let p := getOrder genome
  (List.range p.2.length).foldl
    (fun arr i => modIdx arr (p.2.getD i 0) (fun _ => i))
    (List.replicate p.1.info.getNodeCount 0)

/-- The compiled position of node `x`. -/
def posOf (genome : Genome) (x : Nat) : Nat := (idxToOrder genome).getD x 0

/-- One connection-emission step of `generate`'s inner loop over
`genome.connections` (`o` the current node id, `nodeIdx` its compiled
position): emit the connection if it leaves `o`, with the fatal
non-forward-edge check. -/
def connStep (genome : Genome) (o nodeIdx : Nat)
    (acc2 : Except String (Network × Nat)) (c : GenomeConnection) :
    Except String (Network × Nat) :=
  match acc2 with
  | Except.error e => Except.error e
  | Except.ok (net, ci) =>
    if c.fromNode = o then
      let target := posOf genome c.toNode
      if target ≤ nodeIdx then Except.error "Invalid connection order"
      else Except.ok (net.setConnection ci target c.weight, ci + 1)
    else Except.ok (net, ci)

/-- One node-emission step of `generate`'s outer loop over the order:
write the node slot, then its outgoing connections. -/
def nodeStep (genome g : Genome)
    (acc : Except String (Network × Nat × Nat)) (o : Nat) :
    Except String (Network × Nat × Nat) :=
  match acc with
  | Except.error e => Except.error e
  | Except.ok (net, nodeIdx, connectionIdx) =>
    let node := g.nodes.getD o default
    let net2 := (net.setNode nodeIdx node.activation node.bias
      (g.dag.getNode o).out.length).setNodeDepth nodeIdx node.depth
    match g.connections.foldl (connStep genome o nodeIdx)
        (Except.ok (net2, connectionIdx)) with
    | Except.error e => Except.error e
    | Except.ok (net3, ci') => Except.ok (net3, nodeIdx + 1, ci')

/-- `generate(genome)`: initialize the slot network, then walk the order,
emitting each node followed by its outgoing connections, with the fatal
non-forward-edge check; finally record the last node's depth as the
network's max depth. -/
def generate (genome : Genome) : Except String Network :=
  let p := getOrder genome
  let g := p.1
  let net0 := Network.initNet {} g.info g.connections.length
  match p.2.foldl (nodeStep genome g) (Except.ok (net0, 0, 0)) with
  | Except.error e => Except.error e
  | Except.ok (net, nodeIdx, _) =>
    Except.ok { net with maxDepth := (net.getNodeD (nodeIdx - 1)).depth }

end NetworkGenerator

instance exceptDecEq {e a : Type} [DecidableEq e] [DecidableEq a] :
    DecidableEq (Except e a) := fun x y =>
  match x, y with
  | Except.error u, Except.error v =>
    if h : u = v then isTrue (by rw [h]) else isFalse (fun hc => by cases hc; exact h rfl)
  | Except.ok u, Except.ok v =>
    if h : u = v then isTrue (by rw [h]) else isFalse (fun hc => by cases hc; exact h rfl)
  | Except.error _, Except.ok _ => isFalse (fun hc => by cases hc)
  | Except.ok _, Except.error _ => isFalse (fun hc => by cases hc)

/-- C4 counterexample. spec-modelled: a genome whose three connections
1→2, 2→3, 3→4 are all accepted DAG edges, with node 1 the single output:
forcing the output block to the maximum depth makes node 1 sort after
node 2, so the compile of edge 1→2 hits the fatal non-forward check and
`generate` throws. -/
theorem c4_counterexample :
    (runGOps 1 1 [GOp.node ActivationType.relu NodeType.hidden,
      GOp.node ActivationType.relu NodeType.hidden,
      GOp.node ActivationType.relu NodeType.hidden,
      GOp.conn 1 2 1, GOp.conn 2 3 1, GOp.conn 3 4 1]).connections.length = 3
    ∧ NetworkGenerator.generate (runGOps 1 1 [GOp.node ActivationType.relu NodeType.hidden,
      GOp.node ActivationType.relu NodeType.hidden,
      GOp.node ActivationType.relu NodeType.hidden,
      GOp.conn 1 2 1, GOp.conn 2 3 1, GOp.conn 3 4 1])
      = Except.error "Invalid connection order" := by
  constructor
  · decide
  · decide

theorem computeDepthG_len (g : Genome) :
    g.computeDepth.nodes.length = g.nodes.length := by
  simp [Genome.computeDepth]

theorem computeDepthG_info (g : Genome) : g.computeDepth.info = g.info := rfl

theorem le_foldl_max (l : List Nat) :
    ∀ a : Nat, a ≤ l.foldl max a ∧ (∀ x ∈ l, x ≤ l.foldl max a) := by
  induction l with
  | nil =>
    intro a
    exact ⟨le_refl a, by intro x hx; cases hx⟩
  | cons b l ih =>
    intro a
    rw [List.foldl_cons]
    refine ⟨le_trans (le_max_left a b) (ih (max a b)).1, ?_⟩
    intro x hx
    rcases List.mem_cons.1 hx with h | h
    · subst h
      exact le_trans (le_max_right a x) (ih (max a x)).1
    · exact (ih (max a b)).2 x h

/-- The depth written by the genome's `computeDepth()`: Kahn depth from the
DAG, with the output index block forced to `max(maxDepth, 1)`. -/
theorem computeDepthG_depth (g : Genome) (i : Nat) (hi : i < g.nodes.length) :
    (g.computeDepth.nodes.getD i default).depth
      = if g.info.inputs ≤ i ∧ i < g.info.inputs + g.info.outputs
        then max (((List.range g.nodes.length).map
            (fun j => (g.dag.computeDepth.getNode j).depth)).foldl max 0) 1
        else (g.dag.computeDepth.getNode i).depth := by
  simp only [Genome.computeDepth]
  rw [List.getD_eq_getElem _ _ (by simp; exact hi), List.getElem_map, List.getElem_range]
  split_ifs with h
  · dsimp only
    congr 2
    rw [List.map_map]
    rfl
  · rw [List.getD_eq_getElem _ _ (by simp; exact hi), List.getElem_map, List.getElem_range]

/-- After the genome's `computeDepth()`, every DAG edge whose source is not
an output node strictly increases the stored node depth. -/
theorem genome_depth_forward (genome : Genome) (hOK : GenomeOK genome)
    {u v : Nat} (he : Edge genome.dag u v)
    (hu : genome.isOutputNode u = false) :
    (genome.computeDepth.nodes.getD v default).depth
      > (genome.computeDepth.nodes.getD u default).depth := by
  have hOKd := hOK.dagOK
  have hu_lt : u < genome.dag.nodes.length := he.lt_len
  have hv_lt : v < genome.dag.nodes.length := hOKd.out_valid _ hu_lt _ (edge_def.1 he).2
  have hlen := hOK.2.2.2.1
  have hdag := (computeDepth_spec hOKd).2.2.2 u v he
  have hu' : ¬ (genome.info.inputs ≤ u ∧ u < genome.info.inputs + genome.info.outputs) := by
    rintro ⟨h1, h2⟩
    unfold Genome.isOutputNode at hu
    simp [h1, h2] at hu
  rw [computeDepthG_depth _ u (by omega), computeDepthG_depth _ v (by omega), if_neg hu']
  have hmem : (genome.dag.computeDepth.getNode v).depth ∈
      (List.range genome.nodes.length).map
        (fun j => (genome.dag.computeDepth.getNode j).depth) :=
    List.mem_map.2 ⟨v, List.mem_range.2 (by omega), rfl⟩
  have hmax := (le_foldl_max ((List.range genome.nodes.length).map
      (fun j => (genome.dag.computeDepth.getNode j).depth)) 0).2 _ hmem
  have hm1 := le_max_left (((List.range genome.nodes.length).map
      (fun j => (genome.dag.computeDepth.getNode j).depth)).foldl max 0) 1
  split_ifs with hv'
  · omega
  · omega

theorem idxToOrder_fold_len (order : List Nat) (n : Nat) :
    ∀ k, ((List.range k).foldl
      (fun arr j => modIdx arr (order.getD j 0) (fun _ => j))
      (List.replicate n 0)).length = n := by
  intro k
  induction k with
  | zero => simp
  | succ k ih =>
    rw [List.range_succ, List.foldl_append, List.foldl_cons, List.foldl_nil,
      length_modIdx, ih]

/-- The `idxToOrder[order[i]] = i` write loop, characterized for a
duplicate-free order whose entries are in bounds. -/
theorem idxToOrder_fold_getD (order : List Nat) (n : Nat) (hnodup : order.Nodup)
    (hbound : ∀ x ∈ order, x < n) :
    ∀ k, k ≤ order.length → ∀ i, i < k →
      ((List.range k).foldl
        (fun arr j => modIdx arr (order.getD j 0) (fun _ => j))
        (List.replicate n 0)).getD (order.getD i 0) 0 = i := by
  intro k
  induction k with
  | zero =>
    intro _ i hi
    cases hi
  | succ k ih =>
    intro hk i hi
    rw [List.range_succ, List.foldl_append, List.foldl_cons, List.foldl_nil]
    have hkm : order.getD k 0 ∈ order := by
      rw [List.getD_eq_getElem _ _ (by omega)]
      exact List.getElem_mem (by omega)
    rcases Nat.lt_or_ge i k with hik | hik
    · have hne : order.getD i 0 ≠ order.getD k 0 := by
        rw [List.getD_eq_getElem _ _ (by omega : i < order.length),
          List.getD_eq_getElem _ _ (by omega : k < order.length)]
        intro hc
        have := (List.Nodup.getElem_inj_iff hnodup).1 hc
        omega
      rw [getD_modIdx_ne _ _ _ _ _ hne]
      exact ih (by omega) i hik
    · have hik' : i = k := by omega
      subst hik'
      rw [getD_modIdx_self _ _ _ _ (by
        rw [idxToOrder_fold_len]
        exact hbound _ hkm)]

theorem getOrder_snd (genome : Genome) :
    (NetworkGenerator.getOrder genome).2
      = (List.range genome.computeDepth.nodes.length).take genome.info.inputs
        ++ List.insertionSort (fun a b =>
            (genome.computeDepth.nodes.getD a default).depth
              ≤ (genome.computeDepth.nodes.getD b default).depth)
          ((List.range genome.computeDepth.nodes.length).drop genome.info.inputs) := rfl

theorem getOrder_perm (genome : Genome) :
    (NetworkGenerator.getOrder genome).2.Perm
      (List.range genome.computeDepth.nodes.length) := by
  rw [getOrder_snd]
  have h := List.Perm.append_left
    ((List.range genome.computeDepth.nodes.length).take genome.info.inputs)
    (List.perm_insertionSort (fun a b =>
      (genome.computeDepth.nodes.getD a default).depth
        ≤ (genome.computeDepth.nodes.getD b default).depth)
      ((List.range genome.computeDepth.nodes.length).drop genome.info.inputs))
  exact h.trans (by rw [List.take_append_drop])

theorem getOrder_length (genome : Genome) :
    (NetworkGenerator.getOrder genome).2.length = genome.nodes.length := by
  rw [(getOrder_perm genome).length_eq, List.length_range, computeDepthG_len]

theorem getOrder_nodup (genome : Genome) :
    (NetworkGenerator.getOrder genome).2.Nodup :=
  ((getOrder_perm genome).nodup_iff).2 (List.nodup_range _)

theorem getOrder_mem (genome : Genome) (x : Nat) :
    x ∈ (NetworkGenerator.getOrder genome).2 ↔ x < genome.nodes.length := by
  rw [(getOrder_perm genome).mem_iff, List.mem_range, computeDepthG_len]

theorem posOf_getD (genome : Genome) (i : Nat)
    (hi : i < (NetworkGenerator.getOrder genome).2.length)
    (hn : ∀ x ∈ (NetworkGenerator.getOrder genome).2,
      x < (NetworkGenerator.getOrder genome).1.info.getNodeCount) :
    NetworkGenerator.posOf genome
      ((NetworkGenerator.getOrder genome).2.getD i 0) = i := by
  unfold NetworkGenerator.posOf NetworkGenerator.idxToOrder
  dsimp only
  exact idxToOrder_fold_getD _ _ (getOrder_nodup genome) hn _ (le_refl _) i hi

theorem getOrder_getD_input (genome : Genome) (u : Nat)
    (hu : u < genome.info.inputs)
    (hle : genome.info.inputs ≤ genome.computeDepth.nodes.length) :
    (NetworkGenerator.getOrder genome).2.getD u 0 = u := by
  rw [getOrder_snd]
  rw [List.getD_append _ _ _ _ (by simp; omega)]
  rw [List.getD_eq_getElem _ _ (by simp; omega), List.getElem_take, List.getElem_range]

theorem getOrder_getD_inj (genome : Genome) {i j : Nat}
    (hi : i < (NetworkGenerator.getOrder genome).2.length)
    (hj : j < (NetworkGenerator.getOrder genome).2.length)
    (h : (NetworkGenerator.getOrder genome).2.getD i 0
      = (NetworkGenerator.getOrder genome).2.getD j 0) : i = j := by
  rw [List.getD_eq_getElem _ _ hi, List.getD_eq_getElem _ _ hj] at h
  exact (List.Nodup.getElem_inj_iff (getOrder_nodup genome)).1 h

theorem getOrder_sorted (genome : Genome) :
    List.Pairwise (fun a b =>
      (genome.computeDepth.nodes.getD a default).depth
        ≤ (genome.computeDepth.nodes.getD b default).depth)
      (List.insertionSort (fun a b =>
        (genome.computeDepth.nodes.getD a default).depth
          ≤ (genome.computeDepth.nodes.getD b default).depth)
        ((List.range genome.computeDepth.nodes.length).drop genome.info.inputs)) := by
  haveI : IsTotal Nat (fun a b =>
      (genome.computeDepth.nodes.getD a default).depth
        ≤ (genome.computeDepth.nodes.getD b default).depth) :=
    ⟨fun a b => Nat.le_total _ _⟩
  haveI : IsTrans Nat (fun a b =>
      (genome.computeDepth.nodes.getD a default).depth
        ≤ (genome.computeDepth.nodes.getD b default).depth) :=
    ⟨fun a b c hab hbc => le_trans hab hbc⟩
  exact List.sorted_insertionSort _ _

/-- Forwardness of the compiled order: an accepted DAG edge whose source is
not an output node and whose target is not an input node goes from an
earlier to a strictly later compiled position. -/
theorem posOf_forward (genome : Genome) (hOK : GenomeOK genome)
    (hB : GenomeBlocks genome) {u v : Nat} (he : Edge genome.dag u v)
    (huo : genome.isOutputNode u = false)
    (hvi : genome.isInputNode v = false) :
    NetworkGenerator.posOf genome u < NetworkGenerator.posOf genome v := by
  obtain ⟨hlen_bi, -, -, -⟩ := hB
  have hdaglen := hOK.2.2.2.1
  have hu_lt : u < genome.nodes.length := by
    have := he.lt_len
    omega
  have hv_lt : v < genome.nodes.length := by
    have := hOK.dagOK.out_valid _ he.lt_len _ (edge_def.1 he).2
    omega
  have hcn : genome.computeDepth.nodes.length = genome.nodes.length :=
    computeDepthG_len genome
  have hOlen : (NetworkGenerator.getOrder genome).2.length = genome.nodes.length :=
    getOrder_length genome
  have hbound : ∀ x ∈ (NetworkGenerator.getOrder genome).2,
      x < (NetworkGenerator.getOrder genome).1.info.getNodeCount := by
    intro x hx
    have hx' := (getOrder_mem genome x).1 hx
    show x < genome.computeDepth.info.getNodeCount
    rw [computeDepthG_info]
    unfold NetworkInfo.getNodeCount
    omega
  have hvin : genome.info.inputs ≤ v := by
    unfold Genome.isInputNode at hvi
    simpa using hvi
  obtain ⟨iu, hiu, hiue⟩ := List.mem_iff_getElem.1 ((getOrder_mem genome u).2 hu_lt)
  obtain ⟨iv, hiv, hive⟩ := List.mem_iff_getElem.1 ((getOrder_mem genome v).2 hv_lt)
  have hiue' : (NetworkGenerator.getOrder genome).2.getD iu 0 = u := by
    rw [List.getD_eq_getElem _ _ hiu]
    exact hiue
  have hive' : (NetworkGenerator.getOrder genome).2.getD iv 0 = v := by
    rw [List.getD_eq_getElem _ _ hiv]
    exact hive
  have hpu : NetworkGenerator.posOf genome u = iu := by
    rw [← hiue']
    exact posOf_getD genome iu hiu hbound
  have hpv : NetworkGenerator.posOf genome v = iv := by
    rw [← hive']
    exact posOf_getD genome iv hiv hbound
  rw [hpu, hpv]
  have hivge : genome.info.inputs ≤ iv := by
    by_contra hlt
    push_neg at hlt
    have h1 := getOrder_getD_input genome iv hlt (by omega)
    rw [hive'] at h1
    omega
  rcases Nat.lt_or_ge u genome.info.inputs with hui | hui
  · have hgu := getOrder_getD_input genome u hui (by omega)
    have : iu = u := getOrder_getD_inj genome hiu (by omega) (by rw [hiue', hgu])
    omega
  · have hiuge : genome.info.inputs ≤ iu := by
      by_contra hlt
      push_neg at hlt
      have h1 := getOrder_getD_input genome iu hlt (by omega)
      rw [hiue'] at h1
      omega
    have hdf := genome_depth_forward genome hOK he huo
    rcases Nat.lt_or_ge iu iv with h | h
    · exact h
    · exfalso
      have hne : iu ≠ iv := by
        intro hc
        subst hc
        rw [hiue'] at hive'
        subst hive'
        omega
      have hivlt : iv < iu := by omega
      -- move to the sorted segment
      have hAlen : ((List.range genome.computeDepth.nodes.length).take
          genome.info.inputs).length = genome.info.inputs := by
        rw [List.length_take, List.length_range]
        omega
      have hSu : (List.insertionSort (fun a b =>
          (genome.computeDepth.nodes.getD a default).depth
            ≤ (genome.computeDepth.nodes.getD b default).depth)
          ((List.range genome.computeDepth.nodes.length).drop
            genome.info.inputs)).getD (iu - genome.info.inputs) 0 = u := by
        rw [← hiue', getOrder_snd,
          List.getD_append_right _ _ _ _ (by rw [hAlen]; omega), hAlen]
      have hSv : (List.insertionSort (fun a b =>
          (genome.computeDepth.nodes.getD a default).depth
            ≤ (genome.computeDepth.nodes.getD b default).depth)
          ((List.range genome.computeDepth.nodes.length).drop
            genome.info.inputs)).getD (iv - genome.info.inputs) 0 = v := by
        rw [← hive', getOrder_snd,
          List.getD_append_right _ _ _ _ (by rw [hAlen]; omega), hAlen]
      have hSlen : (List.insertionSort (fun a b =>
          (genome.computeDepth.nodes.getD a default).depth
            ≤ (genome.computeDepth.nodes.getD b default).depth)
          ((List.range genome.computeDepth.nodes.length).drop
            genome.info.inputs)).length
          = genome.computeDepth.nodes.length - genome.info.inputs := by
        rw [(List.perm_insertionSort _ _).length_eq, List.length_drop, List.length_range]
      have hju : iu - genome.info.inputs < (List.insertionSort (fun a b =>
          (genome.computeDepth.nodes.getD a default).depth
            ≤ (genome.computeDepth.nodes.getD b default).depth)
          ((List.range genome.computeDepth.nodes.length).drop
            genome.info.inputs)).length := by
        rw [hSlen]
        omega
      have hjv : iv - genome.info.inputs < (List.insertionSort (fun a b =>
          (genome.computeDepth.nodes.getD a default).depth
            ≤ (genome.computeDepth.nodes.getD b default).depth)
          ((List.range genome.computeDepth.nodes.length).drop
            genome.info.inputs)).length := by
        rw [hSlen]
        omega
      have hpair := List.pairwise_iff_getElem.1 (getOrder_sorted genome)
        (iv - genome.info.inputs) (iu - genome.info.inputs) hjv hju (by omega)
      rw [← List.getD_eq_getElem _ 0 hjv, ← List.getD_eq_getElem _ 0 hju,
        hSu, hSv] at hpair
      omega

/-- The connection record compiled into a connection slot: the target's
compiled position and the weight (`value` stays at its initial `0`). -/
def connSlot (p : Nat × Rat) : NetworkSlot :=
  NetworkSlot.conn { toIdx := p.1, weight := p.2, value := 0 }

/-- The sequence of `setConnection` writes of the emission loop, starting
at connection cursor `ci`. -/
def writeConns : Network → Nat → List (Nat × Rat) → Network
  | net, _, [] => net
  | net, ci, e :: es => writeConns (net.setConnection ci e.1 e.2) (ci + 1) es

/-- The connection records `generate` emits, grouped by source node in
order: for each node of `l` in turn, the records of exactly its outgoing
connections, in connection-list order. -/
def emittedConns (genome : Genome) (cs : List GenomeConnection) : List Nat → List (Nat × Rat)
  | [] => []
  | o :: l => (cs.filter (fun c => c.fromNode = o)).map
      (fun c => (NetworkGenerator.posOf genome c.toNode, c.weight))
    ++ emittedConns genome cs l

theorem drop_modIdx_lt {α : Type} (f : α → α) :
    ∀ (l : List α) (i n : Nat), i < n → (modIdx l i f).drop n = l.drop n := by
  intro l
  induction l with
  | nil => intro i n _; rfl
  | cons a l ih =>
    intro i n h
    cases i with
    | zero =>
      cases n with
      | zero => omega
      | succ m => rw [modIdx_cons_zero, List.drop_succ_cons, List.drop_succ_cons]
    | succ j =>
      cases n with
      | zero => omega
      | succ m =>
        rw [modIdx_cons_succ, List.drop_succ_cons, List.drop_succ_cons]
        exact ih j m (by omega)

theorem drop_modIdx_ge {α : Type} (f : α → α) :
    ∀ (l : List α) (i n : Nat), n ≤ i →
      (modIdx l i f).drop n = modIdx (l.drop n) (i - n) f := by
  intro l
  induction l with
  | nil => intro i n _; simp
  | cons a l ih =>
    intro i n h
    cases n with
    | zero => simp
    | succ m =>
      cases i with
      | zero => omega
      | succ j =>
        rw [modIdx_cons_succ, List.drop_succ_cons, List.drop_succ_cons,
          ih j m (by omega)]
        congr 1
        omega

theorem modIdx_append_len {α : Type} (f : α → α) :
    ∀ (A B : List α), modIdx (A ++ B) A.length f = A ++ modIdx B 0 f := by
  intro A
  induction A with
  | nil => intro B; rfl
  | cons a A ih =>
    intro B
    rw [List.cons_append, List.length_cons, modIdx_cons_succ, ih, List.cons_append]

theorem setConnection_drop (net : Network) (ci t : Nat) (w : Rat) :
    (net.setConnection ci t w).slots.drop net.info.getNodeCount
      = modIdx (net.slots.drop net.info.getNodeCount) ci
        (fun s => match s with
          | NetworkSlot.conn c => NetworkSlot.conn { c with toIdx := t, weight := w }
          | s => s) := by
  show (modIdx net.slots (net.info.getNodeCount + ci) _).drop net.info.getNodeCount = _
  rw [drop_modIdx_ge _ net.slots _ _ (by omega)]
  congr 1
  omega

theorem setNode_drop (net : Network) (i : Nat) (a : ActivationType) (b : Rat)
    (cc : Nat) (h : i < net.info.getNodeCount) :
    (net.setNode i a b cc).slots.drop net.info.getNodeCount
      = net.slots.drop net.info.getNodeCount :=
  drop_modIdx_lt _ net.slots i _ h

theorem setNodeDepth_drop (net : Network) (i d : Nat)
    (h : i < net.info.getNodeCount) :
    (net.setNodeDepth i d).slots.drop net.info.getNodeCount
      = net.slots.drop net.info.getNodeCount :=
  drop_modIdx_lt _ net.slots i _ h

/-- `writeConns` fills the untouched connection slots one by one: starting
from a connection block `E ++ default-slots` with the cursor at `E.length`,
it appends exactly the compiled records. -/
theorem writeConns_block :
    ∀ (es : List (Nat × Rat)) (net : Network) (E : List NetworkSlot) (r : Nat),
      net.slots.drop net.info.getNodeCount
        = E ++ List.replicate (es.length + r) (NetworkSlot.conn {}) →
      (writeConns net E.length es).info = net.info
      ∧ (writeConns net E.length es).slots.drop net.info.getNodeCount
          = E ++ es.map connSlot ++ List.replicate r (NetworkSlot.conn {}) := by
  intro es
  induction es with
  | nil =>
    intro net E r h
    refine ⟨rfl, ?_⟩
    rw [show writeConns net E.length [] = net from rfl, h]
    simp
  | cons e es ih =>
    intro net E r h
    have hblock1 : (net.setConnection E.length e.1 e.2).slots.drop
        net.info.getNodeCount
        = (E ++ [connSlot e]) ++ List.replicate (es.length + r) (NetworkSlot.conn {}) := by
      rw [setConnection_drop, h,
        show (e :: es).length + r = (es.length + r) + 1 from by simp; omega,
        List.replicate_succ, modIdx_append_len, modIdx_cons_zero]
      simp [connSlot]
    have hlen1 : (E ++ [connSlot e]).length = E.length + 1 := by simp
    obtain ⟨hi2, hb2⟩ := ih (net.setConnection E.length e.1 e.2) (E ++ [connSlot e]) r
      (by exact hblock1)
    rw [hlen1] at hi2 hb2
    rw [show (net.setConnection E.length e.1 e.2).info = net.info from rfl] at hi2 hb2
    refine ⟨?_, ?_⟩
    · rw [show writeConns net E.length (e :: es)
        = writeConns (net.setConnection E.length e.1 e.2) (E.length + 1) es from rfl]
      exact hi2
    · rw [show writeConns net E.length (e :: es)
        = writeConns (net.setConnection E.length e.1 e.2) (E.length + 1) es from rfl]
      rw [hb2]
      simp

theorem emittedConns_nil_conns (genome : Genome) :
    ∀ l : List Nat, emittedConns genome [] l = [] := by
  intro l
  induction l with
  | nil => rfl
  | cons o l ih => simp [emittedConns, ih]

theorem emittedConns_cons_not_mem (genome : Genome) (c : GenomeConnection)
    (cs : List GenomeConnection) :
    ∀ l : List Nat, c.fromNode ∉ l →
      emittedConns genome (c :: cs) l = emittedConns genome cs l := by
  intro l
  induction l with
  | nil => intro _; rfl
  | cons o l ih =>
    intro h
    have ho : ¬ (c.fromNode = o) := fun hc => h (by rw [hc]; exact List.mem_cons_self o l)
    have hl : c.fromNode ∉ l := fun hm => h (List.mem_cons_of_mem o hm)
    simp only [emittedConns, List.filter_cons]
    rw [if_neg (by simpa using ho), ih hl]

theorem emittedConns_cons_length (genome : Genome) (c : GenomeConnection)
    (cs : List GenomeConnection) :
    ∀ l : List Nat, l.Nodup → c.fromNode ∈ l →
      (emittedConns genome (c :: cs) l).length
        = (emittedConns genome cs l).length + 1 := by
  intro l
  induction l with
  | nil =>
    intro _ hm
    cases hm
  | cons o l ih =>
    intro hnd hm
    simp only [emittedConns, List.filter_cons, List.length_append, List.length_map]
    by_cases hc : c.fromNode = o
    · rw [if_pos (by simpa using hc)]
      have hnl : c.fromNode ∉ l := by
        rw [hc]
        exact (List.nodup_cons.1 hnd).1
      rw [emittedConns_cons_not_mem genome c cs l hnl]
      simp only [List.length_cons]
      omega
    · rw [if_neg (by simpa using hc)]
      have hml : c.fromNode ∈ l := by
        rcases List.mem_cons.1 hm with h | h
        · exact absurd h hc
        · exact h
      rw [ih (List.nodup_cons.1 hnd).2 hml]
      omega

/-- With a duplicate-free order covering every connection's source, the
grouped emission covers every connection exactly once. -/
theorem emittedConns_length (genome : Genome) (l : List Nat) (hnd : l.Nodup) :
    ∀ cs : List GenomeConnection, (∀ c ∈ cs, c.fromNode ∈ l) →
      (emittedConns genome cs l).length = cs.length := by
  intro cs
  induction cs with
  | nil =>
    intro _
    rw [emittedConns_nil_conns]
    rfl
  | cons c cs ih =>
    intro h
    rw [emittedConns_cons_length genome c cs l hnd (h c (by simp)),
      ih (fun c' hc' => h c' (by simp [hc']))]
    rfl

/-- The inner emission loop, exactly: with every matching connection
forward of position `k`, it performs the `setConnection` writes of node
`o`'s records and advances the cursor by their number. -/
theorem connStep_fold_spec (genome : Genome) (o k : Nat) :
    ∀ (cs : List GenomeConnection),
      (∀ c ∈ cs, c.fromNode = o → k < NetworkGenerator.posOf genome c.toNode) →
      ∀ (net : Network) (ci : Nat),
        cs.foldl (NetworkGenerator.connStep genome o k) (Except.ok (net, ci))
          = Except.ok (writeConns net ci ((cs.filter (fun c => c.fromNode = o)).map
              (fun c => (NetworkGenerator.posOf genome c.toNode, c.weight))),
            ci + (cs.filter (fun c => c.fromNode = o)).length) := by
  intro cs
  induction cs with
  | nil =>
    intro _ net ci
    simp [writeConns]
  | cons c cs ih =>
    intro h net ci
    rw [List.foldl_cons]
    by_cases hc : c.fromNode = o
    · have hstep : NetworkGenerator.connStep genome o k (Except.ok (net, ci)) c
          = Except.ok (net.setConnection ci
            (NetworkGenerator.posOf genome c.toNode) c.weight, ci + 1) := by
        simp only [NetworkGenerator.connStep]
        rw [if_pos hc, if_neg (by have := h c (by simp) hc; omega)]
      rw [hstep, ih (fun c' hc' ho => h c' (by simp [hc']) ho),
        List.filter_cons, if_pos (by simpa using hc), List.map_cons]
      rw [show writeConns net ci ((NetworkGenerator.posOf genome c.toNode, c.weight)
          :: (cs.filter (fun c => c.fromNode = o)).map
            (fun c => (NetworkGenerator.posOf genome c.toNode, c.weight)))
        = writeConns (net.setConnection ci
            (NetworkGenerator.posOf genome c.toNode) c.weight) (ci + 1)
          ((cs.filter (fun c => c.fromNode = o)).map
            (fun c => (NetworkGenerator.posOf genome c.toNode, c.weight))) from rfl]
      rw [List.length_cons]
      congr 2
      omega
    · have hstep : NetworkGenerator.connStep genome o k (Except.ok (net, ci)) c
          = Except.ok (net, ci) := by
        simp only [NetworkGenerator.connStep]
        rw [if_neg hc]
      rw [hstep, ih (fun c' hc' ho => h c' (by simp [hc']) ho),
        List.filter_cons, if_neg (by simpa using hc)]

/-- The outer emission loop, exactly: walking the order from position `k`
with the connection block still blank past `E`, it compiles one node and
its grouped connection records per step, never hitting the fatal check
when every connection is forward of its source's position. -/
theorem nodeStep_fold_spec (genome g : Genome) :
    ∀ (l : List Nat) (k : Nat) (net : Network) (E : List NetworkSlot) (r : Nat),
      (∀ j, j < l.length → ∀ c ∈ g.connections,
        c.fromNode = l.getD j 0 → k + j < NetworkGenerator.posOf genome c.toNode) →
      k + l.length ≤ net.info.getNodeCount →
      net.slots.drop net.info.getNodeCount
        = E ++ List.replicate ((emittedConns genome g.connections l).length + r)
            (NetworkSlot.conn {}) →
      ∃ net',
        l.foldl (NetworkGenerator.nodeStep genome g) (Except.ok (net, k, E.length))
          = Except.ok (net', k + l.length,
              E.length + (emittedConns genome g.connections l).length)
        ∧ net'.info = net.info
        ∧ net'.slots.drop net.info.getNodeCount
            = E ++ (emittedConns genome g.connections l).map connSlot
              ++ List.replicate r (NetworkSlot.conn {}) := by
  intro l
  induction l with
  | nil =>
    intro k net E r _ _ hblock
    refine ⟨net, by simp [emittedConns], rfl, ?_⟩
    simpa [emittedConns] using hblock
  | cons o l ih =>
    intro k net E r h hk hblock
    simp only [List.length_cons] at hk
    have h0 : ∀ c ∈ g.connections, c.fromNode = o →
        k < NetworkGenerator.posOf genome c.toNode := by
      intro c hc hf
      have := h 0 (by simp) c hc (by simpa using hf)
      omega
    have hb2 : ((net.setNode k (g.nodes.getD o default).activation
          (g.nodes.getD o default).bias (g.dag.getNode o).out.length).setNodeDepth k
          (g.nodes.getD o default).depth).slots.drop net.info.getNodeCount
        = net.slots.drop net.info.getNodeCount := by
      have h1 := setNodeDepth_drop (net.setNode k (g.nodes.getD o default).activation
        (g.nodes.getD o default).bias (g.dag.getNode o).out.length) k
        (g.nodes.getD o default).depth
        (show k < net.info.getNodeCount by omega)
      have h2 := setNode_drop net k (g.nodes.getD o default).activation
        (g.nodes.getD o default).bias (g.dag.getNode o).out.length (by omega)
      exact h1.trans h2
    have hinner := connStep_fold_spec genome o k g.connections h0
      ((net.setNode k (g.nodes.getD o default).activation
        (g.nodes.getD o default).bias (g.dag.getNode o).out.length).setNodeDepth k
        (g.nodes.getD o default).depth) E.length
    have hcount : (emittedConns genome g.connections (o :: l)).length + r
        = ((g.connections.filter (fun c => c.fromNode = o)).map
            (fun c => (NetworkGenerator.posOf genome c.toNode, c.weight))).length
          + ((emittedConns genome g.connections l).length + r) := by
      rw [show emittedConns genome g.connections (o :: l)
        = (g.connections.filter (fun c => c.fromNode = o)).map
            (fun c => (NetworkGenerator.posOf genome c.toNode, c.weight))
          ++ emittedConns genome g.connections l from rfl, List.length_append]
      omega
    obtain ⟨hi3, hb3⟩ := writeConns_block
      ((g.connections.filter (fun c => c.fromNode = o)).map
        (fun c => (NetworkGenerator.posOf genome c.toNode, c.weight)))
      ((net.setNode k (g.nodes.getD o default).activation
        (g.nodes.getD o default).bias (g.dag.getNode o).out.length).setNodeDepth k
        (g.nodes.getD o default).depth)
      E ((emittedConns genome g.connections l).length + r)
      (by
        show ((net.setNode k (g.nodes.getD o default).activation
            (g.nodes.getD o default).bias (g.dag.getNode o).out.length).setNodeDepth k
            (g.nodes.getD o default).depth).slots.drop net.info.getNodeCount = _
        rw [hb2, hblock, hcount])
    have hstep : NetworkGenerator.nodeStep genome g (Except.ok (net, k, E.length)) o
        = Except.ok (writeConns
            ((net.setNode k (g.nodes.getD o default).activation
              (g.nodes.getD o default).bias (g.dag.getNode o).out.length).setNodeDepth k
              (g.nodes.getD o default).depth) E.length
            ((g.connections.filter (fun c => c.fromNode = o)).map
              (fun c => (NetworkGenerator.posOf genome c.toNode, c.weight))),
          k + 1,
          E.length + (g.connections.filter (fun c => c.fromNode = o)).length) := by
      simp only [NetworkGenerator.nodeStep]
      rw [hinner]
    obtain ⟨net4, hf4, hi4, hb4⟩ := ih (k + 1)
      (writeConns
        ((net.setNode k (g.nodes.getD o default).activation
          (g.nodes.getD o default).bias (g.dag.getNode o).out.length).setNodeDepth k
          (g.nodes.getD o default).depth) E.length
        ((g.connections.filter (fun c => c.fromNode = o)).map
          (fun c => (NetworkGenerator.posOf genome c.toNode, c.weight))))
      (E ++ ((g.connections.filter (fun c => c.fromNode = o)).map
        (fun c => (NetworkGenerator.posOf genome c.toNode, c.weight))).map connSlot)
      r
      (by
        intro j hj c hc hf
        have := h (j + 1) (by simpa using hj) c hc (by simpa using hf)
        omega)
      (by
        rw [hi3]
        show k + 1 + l.length ≤ net.info.getNodeCount
        omega)
      (by
        rw [hi3]
        exact hb3)
    have hE' : (E ++ ((g.connections.filter (fun c => c.fromNode = o)).map
        (fun c => (NetworkGenerator.posOf genome c.toNode, c.weight))).map connSlot).length
        = E.length + (g.connections.filter (fun c => c.fromNode = o)).length := by
      simp
    rw [hE'] at hf4
    refine ⟨net4, ?_, ?_, ?_⟩
    · rw [List.foldl_cons, hstep, hf4]
      rw [show k + 1 + l.length = k + (o :: l).length from by simp [List.length_cons]; omega]
      rw [show E.length + (g.connections.filter (fun c => c.fromNode = o)).length
          + (emittedConns genome g.connections l).length
          = E.length + (emittedConns genome g.connections (o :: l)).length from by
        rw [show emittedConns genome g.connections (o :: l)
          = (g.connections.filter (fun c => c.fromNode = o)).map
              (fun c => (NetworkGenerator.posOf genome c.toNode, c.weight))
            ++ emittedConns genome g.connections l from rfl,
          List.length_append, List.length_map]
        omega]
    · exact hi4.trans hi3
    · rw [hi3, show ((net.setNode k (g.nodes.getD o default).activation
          (g.nodes.getD o default).bias (g.dag.getNode o).out.length).setNodeDepth k
          (g.nodes.getD o default).depth).info = net.info from rfl] at hb4
      rw [hb4, show emittedConns genome g.connections (o :: l)
        = (g.connections.filter (fun c => c.fromNode = o)).map
            (fun c => (NetworkGenerator.posOf genome c.toNode, c.weight))
          ++ emittedConns genome g.connections l from rfl, List.map_append]
      simp [List.append_assoc]

/-- C4 (amended). spec-modelled: for a well-formed block-shaped genome whose
accepted connections all avoid output-range sources and input-range targets
(exactly what the Mutator's add-connection step proposes), the compile
succeeds — the fatal non-forward check never fires — and the produced
network's connection slot block is exactly the connections grouped by
source node in compiled-node order (`emittedConns`), each record carrying
its target's compiled position, which by the first conjunct strictly
exceeds its source's position. -/
theorem c4_generate_ok (genome : Genome) (hOK : GenomeOK genome)
    (hB : GenomeBlocks genome)
    (hres : ∀ c ∈ genome.connections,
      genome.isOutputNode c.fromNode = false ∧ genome.isInputNode c.toNode = false) :
    (∀ c ∈ genome.connections,
      NetworkGenerator.posOf genome c.fromNode
        < NetworkGenerator.posOf genome c.toNode)
    ∧ ∃ net, NetworkGenerator.generate genome = Except.ok net
        ∧ net.info = genome.info
        ∧ net.slots.drop genome.info.getNodeCount
            = (emittedConns genome genome.connections
                (NetworkGenerator.getOrder genome).2).map connSlot := by
  have hfwd : ∀ c ∈ genome.connections,
      NetworkGenerator.posOf genome c.fromNode
        < NetworkGenerator.posOf genome c.toNode := by
    intro c hc
    exact posOf_forward genome hOK hB (hOK.2.2.2.2 c hc) (hres c hc).1 (hres c hc).2
  have hbound : ∀ x ∈ (NetworkGenerator.getOrder genome).2,
      x < (NetworkGenerator.getOrder genome).1.info.getNodeCount := by
    intro x hx
    have hx' := (getOrder_mem genome x).1 hx
    show x < genome.computeDepth.info.getNodeCount
    rw [computeDepthG_info]
    unfold NetworkInfo.getNodeCount
    obtain ⟨hlb, -, -, -⟩ := hB
    omega
  have hOlen : (NetworkGenerator.getOrder genome).2.length = genome.nodes.length :=
    getOrder_length genome
  have hfmem : ∀ c ∈ genome.connections,
      c.fromNode ∈ (NetworkGenerator.getOrder genome).2 := by
    intro c hc
    refine (getOrder_mem genome c.fromNode).2 ?_
    have hlt := Edge.lt_len (hOK.2.2.2.2 c hc : Edge genome.dag c.fromNode c.toNode)
    have := hOK.2.2.2.1
    omega
  have hem : (emittedConns genome (NetworkGenerator.getOrder genome).1.connections
      (NetworkGenerator.getOrder genome).2).length
      = (NetworkGenerator.getOrder genome).1.connections.length :=
    emittedConns_length genome _ (getOrder_nodup genome) _ hfmem
  obtain ⟨net', hfold, hinfo', hblock'⟩ := nodeStep_fold_spec genome
    (NetworkGenerator.getOrder genome).1 (NetworkGenerator.getOrder genome).2 0
    (Network.initNet {} (NetworkGenerator.getOrder genome).1.info
      (NetworkGenerator.getOrder genome).1.connections.length)
    [] 0
    (by
      intro j hj c hc hf
      have hpj := posOf_getD genome j hj hbound
      have hlt := hfwd c hc
      rw [hf, hpj] at hlt
      omega)
    (by
      show 0 + (NetworkGenerator.getOrder genome).2.length ≤ genome.info.getNodeCount
      rw [hOlen]
      unfold NetworkInfo.getNodeCount
      obtain ⟨hlb, -, -, -⟩ := hB
      omega)
    (by
      show ((List.range ((NetworkGenerator.getOrder genome).1.info.getNodeCount)).map
          (fun _ => NetworkSlot.node {})
        ++ (List.range ((NetworkGenerator.getOrder genome).1.connections.length)).map
          (fun _ => NetworkSlot.conn {})).drop
          ((NetworkGenerator.getOrder genome).1.info.getNodeCount) = _
      rw [List.drop_left' (by simp), List.nil_append, Nat.add_zero, hem]
      simp)
  simp only [List.length_nil, Nat.zero_add] at hfold
  simp only [List.nil_append, List.replicate_zero, List.append_nil] at hblock'
  refine ⟨hfwd, ⟨{ net' with maxDepth := (net'.getNodeD
    ((NetworkGenerator.getOrder genome).2.length - 1)).depth }, ?_, ?_, ?_⟩⟩
  · simp only [NetworkGenerator.generate]
    rw [hfold]
  · exact hinfo'
  · exact hblock'

/-- Witness for the amended C4: a concrete input→hidden→output genome
compiles successfully, with the connection block grouped by source node in
compiled order. -/
theorem c4_witness :
    GenomeOK (runGOps 1 1 [GOp.node ActivationType.relu NodeType.hidden,
      GOp.conn 0 2 1, GOp.conn 2 1 1])
    ∧ ∃ net, NetworkGenerator.generate
        (runGOps 1 1 [GOp.node ActivationType.relu NodeType.hidden,
          GOp.conn 0 2 1, GOp.conn 2 1 1]) = Except.ok net
      ∧ net.info = (runGOps 1 1 [GOp.node ActivationType.relu NodeType.hidden,
          GOp.conn 0 2 1, GOp.conn 2 1 1]).info
      ∧ net.slots.drop (runGOps 1 1 [GOp.node ActivationType.relu NodeType.hidden,
          GOp.conn 0 2 1, GOp.conn 2 1 1]).info.getNodeCount
        = (emittedConns (runGOps 1 1 [GOp.node ActivationType.relu NodeType.hidden,
              GOp.conn 0 2 1, GOp.conn 2 1 1])
            (runGOps 1 1 [GOp.node ActivationType.relu NodeType.hidden,
              GOp.conn 0 2 1, GOp.conn 2 1 1]).connections
            (NetworkGenerator.getOrder (runGOps 1 1 [GOp.node ActivationType.relu
              NodeType.hidden, GOp.conn 0 2 1, GOp.conn 2 1 1])).2).map connSlot :=
  ⟨by decide,
    (c4_generate_ok (runGOps 1 1 [GOp.node ActivationType.relu NodeType.hidden,
        GOp.conn 0 2 1, GOp.conn 2 1 1]) (by decide) (by decide) (by decide)).2⟩

end NeatJS
